import Mathlib

/-!
Verification development for the cmix PAQ8HP predictor core
(src/src/models/paq8hp.cpp) and the byte-mixer adapter
(src/src/mixer/byte-mixer.cpp).

Shallow embedding conventions:
- C `unsigned int` (U32) values are Nats, wrapped by `% 4294967296` at each
  write that can overflow; U16 by `% 65536`; U8 by `% 256`.
- C `int` values that can be negative are Ints.  The C arithmetic right
  shift `>>` on a signed int is `asr` (floor division by a power of two);
  C `&127` on a signed int is `Int.emod _ 128` (the low bits of the two
  complement form); C truncating division `/` on signed ints is `Int.tdiv`.
- C arrays are total functions from indices; only the in-bounds part is
  ever relevant, and theorems carry the corresponding bounds hypotheses.
-/

/-- Arithmetic shift right on Int: floor division by 2 ^ k, which is what the
C compilers used by this code do for `>>` on a negative signed int. -/
def asr (x : Int) (k : Nat) : Int := Int.fdiv x (2 ^ k)

/-- Two complement wrap of an Int into a 16-bit signed short, as produced by
the C conversion from int to short. -/
def toShort (v : Int) : Int := (v + 32768) % 65536 - 32768

/-- Two complement representation of the 32-bit negation `-y` for the
unsigned 32-bit AND in `sm_add & (-y)`. -/
def neg32 (y : Nat) : Nat := (4294967296 - y) % 4294967296

/-- Wrap an Int into an unsigned 32-bit value (two complement reading). -/
def i2u32 (v : Int) : Nat := (v % 4294967296).toNat

lemma asr_eq_ediv (x : Int) (k : Nat) : asr x k = x / (2 ^ k) := by
  unfold asr; exact Int.fdiv_eq_ediv x (by positivity)

lemma asr_nonneg {x : Int} {k : Nat} (h : 0 ≤ x) : 0 ≤ asr x k := by
  rw [asr_eq_ediv]; exact Int.ediv_nonneg h (by positivity)

/-! ## squash (paq8hp.cpp lines 366-376)

`squash(d)` returns `1/(1+exp(-d))` in fixed point: d scaled by 256,
result scaled by 4096, computed by interpolating a 33-entry table. -/

/-- The 33-entry interpolation table `t` inside `squash`.  Index access past
32 never happens with an in-range argument; out of range we return 0, which
matches no concrete C behaviour but is never reached under the bounds that
accompany every use. -/
def sqT : Nat → Int
  | 0 => 1 | 1 => 2 | 2 => 3 | 3 => 6 | 4 => 10 | 5 => 16 | 6 => 27
  | 7 => 45 | 8 => 73 | 9 => 120 | 10 => 194 | 11 => 310 | 12 => 488
  | 13 => 747 | 14 => 1101 | 15 => 1546 | 16 => 2047 | 17 => 2549
  | 18 => 2994 | 19 => 3348 | 20 => 3607 | 21 => 3785 | 22 => 3901
  | 23 => 3975 | 24 => 4022 | 25 => 4050 | 26 => 4068 | 27 => 4079
  | 28 => 4085 | 29 => 4089 | 30 => 4092 | 31 => 4093 | 32 => 4094
  | _ => 0

/-- squash from paq8hp.cpp lines 366-376.  `d&127` is `d % 128` (emod) and
`d>>7` is floor division by 128, both exact for the two complement ints of
the source; the final `>>7` acts on a nonnegative value. -/
def squash (d : Int) : Int :=
  if 2047 < d then 4095
  else if d < -2047 then 0
  else
    let w := d % 128
    let i := (d / 128 + 16).toNat
    (sqT i * (128 - w) + sqT (i + 1) * w + 64) / 128

lemma sqT_mono : ∀ n : Nat, n ≤ 31 → sqT n ≤ sqT (n + 1) := by decide

lemma sqT_pos : ∀ n : Nat, n ≤ 32 → 1 ≤ sqT n := by decide

lemma sqT_le : ∀ n : Nat, sqT n ≤ 4094 := by
  intro n
  match n with
  | 0 => decide | 1 => decide | 2 => decide | 3 => decide | 4 => decide
  | 5 => decide | 6 => decide | 7 => decide | 8 => decide | 9 => decide
  | 10 => decide | 11 => decide | 12 => decide | 13 => decide | 14 => decide
  | 15 => decide | 16 => decide | 17 => decide | 18 => decide | 19 => decide
  | 20 => decide | 21 => decide | 22 => decide | 23 => decide | 24 => decide
  | 25 => decide | 26 => decide | 27 => decide | 28 => decide | 29 => decide
  | 30 => decide | 31 => decide | 32 => decide
  | (n + 33) => show sqT (n + 33) ≤ 4094; simp [sqT]

lemma sqT_nonneg : ∀ n : Nat, 0 ≤ sqT n := by
  intro n
  match n with
  | 0 => decide | 1 => decide | 2 => decide | 3 => decide | 4 => decide
  | 5 => decide | 6 => decide | 7 => decide | 8 => decide | 9 => decide
  | 10 => decide | 11 => decide | 12 => decide | 13 => decide | 14 => decide
  | 15 => decide | 16 => decide | 17 => decide | 18 => decide | 19 => decide
  | 20 => decide | 21 => decide | 22 => decide | 23 => decide | 24 => decide
  | 25 => decide | 26 => decide | 27 => decide | 28 => decide | 29 => decide
  | 30 => decide | 31 => decide | 32 => decide
  | (n + 33) => show 0 ≤ sqT (n + 33); simp [sqT]

lemma squash_nonneg (d : Int) : 0 ≤ squash d := by
  unfold squash
  split
  · norm_num
  split
  · norm_num
  rename_i h1 h2
  push_neg at h1 h2
  apply Int.ediv_nonneg _ (by norm_num)
  have hw0 : 0 ≤ d % 128 := Int.emod_nonneg d (by norm_num)
  have hw1 : d % 128 < 128 := Int.emod_lt_of_pos d (by norm_num)
  have hA := sqT_nonneg (d / 128 + 16).toNat
  have hB := sqT_nonneg ((d / 128 + 16).toNat + 1)
  nlinarith

lemma squash_le_4095 (d : Int) : squash d ≤ 4095 := by
  unfold squash
  split
  · norm_num
  split
  · norm_num
  have hw0 : 0 ≤ d % 128 := Int.emod_nonneg d (by norm_num)
  have hw1 : d % 128 < 128 := Int.emod_lt_of_pos d (by norm_num)
  have hA := sqT_le (d / 128 + 16).toNat
  have hB := sqT_le ((d / 128 + 16).toNat + 1)
  have hA0 := sqT_nonneg (d / 128 + 16).toNat
  have hB0 := sqT_nonneg ((d / 128 + 16).toNat + 1)
  have hnum : sqT (d / 128 + 16).toNat * (128 - d % 128) +
      sqT ((d / 128 + 16).toNat + 1) * (d % 128) + 64 ≤ 4094 * 128 + 64 := by
    nlinarith
  calc (sqT (d / 128 + 16).toNat * (128 - d % 128) +
      sqT ((d / 128 + 16).toNat + 1) * (d % 128) + 64) / 128
      ≤ (4094 * 128 + 64) / 128 := Int.ediv_le_ediv (by norm_num) hnum
    _ ≤ 4095 := by decide

lemma squash_le_4094_of_le (d : Int) (h : d ≤ 2047) : squash d ≤ 4094 := by
  unfold squash
  split
  · omega
  split
  · norm_num
  have hw0 : 0 ≤ d % 128 := Int.emod_nonneg d (by norm_num)
  have hw1 : d % 128 < 128 := Int.emod_lt_of_pos d (by norm_num)
  have hA := sqT_le (d / 128 + 16).toNat
  have hB := sqT_le ((d / 128 + 16).toNat + 1)
  have hA0 := sqT_nonneg (d / 128 + 16).toNat
  have hB0 := sqT_nonneg ((d / 128 + 16).toNat + 1)
  have hnum : sqT (d / 128 + 16).toNat * (128 - d % 128) +
      sqT ((d / 128 + 16).toNat + 1) * (d % 128) + 64 ≤ 4094 * 128 + 64 := by
    nlinarith
  calc (sqT (d / 128 + 16).toNat * (128 - d % 128) +
      sqT ((d / 128 + 16).toNat + 1) * (d % 128) + 64) / 128
      ≤ (4094 * 128 + 64) / 128 := Int.ediv_le_ediv (by norm_num) hnum
    _ ≤ 4094 := by decide

lemma squash_in_range (d : Int) (h1 : -2047 ≤ d) (h2 : d ≤ 2047) :
    squash d = (sqT (d / 128 + 16).toNat * (128 - d % 128) +
      sqT ((d / 128 + 16).toNat + 1) * (d % 128) + 64) / 128 := by
  unfold squash
  rw [if_neg (by omega), if_neg (by omega)]

lemma ediv_16_bounds {d : Int} (h1 : -2047 ≤ d) (h2 : d ≤ 2047) :
    0 ≤ d / 128 + 16 ∧ d / 128 + 16 ≤ 31 := by
  have hlo : (-2047 : Int) / 128 ≤ d / 128 := Int.ediv_le_ediv (by norm_num) h1
  have hhi : d / 128 ≤ (2047 : Int) / 128 := Int.ediv_le_ediv (by norm_num) h2
  norm_num at hlo hhi
  omega

lemma squash_mono_step (d : Int) (h1 : -2047 ≤ d) (h2 : d + 1 ≤ 2047) :
    squash d ≤ squash (d + 1) := by
  have hq := Int.ediv_add_emod d 128
  have hw0 : 0 ≤ d % 128 := Int.emod_nonneg d (by norm_num)
  have hw1 : d % 128 < 128 := Int.emod_lt_of_pos d (by norm_num)
  obtain ⟨hn0, hn1⟩ := ediv_16_bounds h1 (by omega)
  have hnq : ((d / 128 + 16).toNat : Int) = d / 128 + 16 := Int.toNat_of_nonneg hn0
  have hnle : (d / 128 + 16).toNat ≤ 31 := by omega
  have hA := sqT_mono (d / 128 + 16).toNat hnle
  rw [squash_in_range d h1 (by omega), squash_in_range (d + 1) (by omega) h2]
  rcases lt_or_eq_of_le (by omega : d % 128 ≤ 127) with hw | hw
  · -- same interpolation cell
    have hsplit : (d + 1) / 128 = d / 128 ∧ (d + 1) % 128 = d % 128 + 1 :=
      (Int.ediv_emod_unique (by norm_num)).2 ⟨by omega, by omega, by omega⟩
    rw [hsplit.1, hsplit.2]
    apply Int.ediv_le_ediv (by norm_num)
    nlinarith [hA]
  · -- crossing to the next cell
    have hsplit : (d + 1) / 128 = d / 128 + 1 ∧ (d + 1) % 128 = 0 :=
      (Int.ediv_emod_unique (by norm_num)).2 ⟨by omega, by omega, by omega⟩
    rw [hsplit.1, hsplit.2, hw]
    have hnq1 : (d / 128 + 1 + 16).toNat = (d / 128 + 16).toNat + 1 := by omega
    rw [hnq1]
    apply Int.ediv_le_ediv (by norm_num)
    have hB0 := sqT_nonneg ((d / 128 + 16).toNat + 1 + 1)
    nlinarith [hA]

lemma squash_mono {d e : Int} (h1 : -2047 ≤ d) (h2 : d ≤ e) (h3 : e ≤ 2047) :
    squash d ≤ squash e := by
  have key : ∀ n : Int, d ≤ n → (n ≤ 2047 → squash d ≤ squash n) := by
    refine fun n hn => @Int.le_induction (fun n => n ≤ 2047 → squash d ≤ squash n)
      d (fun _ => le_refl _) ?_ n hn
    intro m hm ih hm1
    exact le_trans (ih (by omega)) (squash_mono_step m (by omega) hm1)
  exact key e h2 h3

/-! ## Stretch (paq8hp.cpp lines 383-402)

The constructor scans x = -2047 .. 2047; at each x it fills every table
entry from the running fill mark up to squash(x) with x, then moves the
mark past squash(x).  Afterwards entry 4095 is set to 2047. -/

/-- State of the Stretch constructor loop: the fill mark `pi` and the table
built so far. -/
structure StState where
  mark : Nat
  t : Nat → Int

/-- One iteration of the Stretch constructor loop body for value x:
`i=squash(x); for (j=pi; j<=i; ++j) t[j]=x; pi=i+1;`. -/
def strStep (s : StState) (x : Int) : StState :=
  let i := (squash x).toNat
  { mark := i + 1, t := fun p => if s.mark ≤ p ∧ p ≤ i then x else s.t p }

/-- The Stretch constructor loop after k iterations; iteration k processes
x = k - 2047, starting from the zeroed table. -/
def strLoop : Nat → StState
  | 0 => ⟨0, fun _ => 0⟩
  | k + 1 => strStep (strLoop k) ((k : Int) - 2047)

/-- stretch as a function: the finished table of the Stretch constructor,
including the final override t[4095] = 2047.  The C operator asserts
0 <= p < 4096; outside that range this total function returns the zeroed
default, which no theorem relies on. -/
def stretch (p : Int) : Int :=
  if p = 4095 then 2047 else (strLoop 4095).t p.toNat

/-- Characterisation of a filled stretch-table entry after k loop steps:
it is the first x processed whose squash reaches the index. -/
def StChar (k p : Nat) (x : Int) : Prop :=
  -2047 ≤ x ∧ x ≤ (k : Int) - 2048 ∧ (p : Int) ≤ squash x ∧
    (x = -2047 ∨ squash (x - 1) < (p : Int))

lemma strLoop_succ_mark (k : Nat) :
    (strLoop (k + 1)).mark = (squash ((k : Int) - 2047)).toNat + 1 := rfl

lemma strLoop_char : ∀ k : Nat, ∀ p : Nat, p < (strLoop k).mark →
    StChar k p ((strLoop k).t p) := by
  intro k
  induction k with
  | zero => intro p hp; simp [strLoop] at hp
  | succ k ih =>
      intro p hp
      have hx0 : (0 : Int) ≤ (k : Int) := Int.ofNat_nonneg k
      rw [strLoop_succ_mark] at hp
      have hsq0 : 0 ≤ squash ((k : Int) - 2047) := squash_nonneg _
      show StChar (k + 1) p ((strStep (strLoop k) ((k : Int) - 2047)).t p)
      unfold strStep
      simp only
      by_cases hfill : (strLoop k).mark ≤ p ∧ p ≤ (squash ((k : Int) - 2047)).toNat
      · rw [if_pos hfill]
        refine ⟨by omega, by push_cast; omega, ?_, ?_⟩
        · have := hfill.2
          omega
        · cases k with
          | zero => left; norm_num
          | succ m =>
              right
              have hmark := strLoop_succ_mark m
              have hmp : (strLoop (m + 1)).mark ≤ p := hfill.1
              rw [hmark] at hmp
              have h1 : ((m + 1 : Nat) : Int) - 2047 - 1 = (m : Int) - 2047 := by
                push_cast; ring
              rw [h1]
              have hs0 : 0 ≤ squash ((m : Int) - 2047) := squash_nonneg _
              omega
      · rw [if_neg hfill]
        have hplt : p < (strLoop k).mark := by omega
        obtain ⟨c1, c2, c3, c4⟩ := ih p hplt
        exact ⟨c1, by push_cast at c2 ⊢; omega, c3, c4⟩

lemma squash_2047 : squash (2047 : Int) = 4094 := by decide

lemma strLoop_final_mark : (strLoop 4095).mark = 4095 := by
  have h := strLoop_succ_mark 4094
  have h2 : ((4094 : Nat) : Int) - 2047 = 2047 := by norm_num
  rw [h2] at h
  rw [h, squash_2047]
  decide

lemma stretch_char (p : Int) (h0 : 0 ≤ p) (h1 : p ≤ 4094) :
    -2047 ≤ stretch p ∧ stretch p ≤ 2047 ∧ p ≤ squash (stretch p) ∧
      (stretch p = -2047 ∨ squash (stretch p - 1) < p) := by
  have hlt : p.toNat < (strLoop 4095).mark := by rw [strLoop_final_mark]; omega
  obtain ⟨c1, c2, c3, c4⟩ := strLoop_char 4095 p.toNat hlt
  have hcast : ((p.toNat : Nat) : Int) = p := Int.toNat_of_nonneg h0
  rw [hcast] at c3 c4
  have hs : stretch p = (strLoop 4095).t p.toNat := by
    unfold stretch; rw [if_neg (by omega)]
  rw [hs]
  refine ⟨c1, ?_, c3, c4⟩
  have : ((4095 : Nat) : Int) - 2048 = 2047 := by norm_num
  rw [this] at c2
  exact c2

lemma stretch_squash_le {d : Int} (h1 : -2047 ≤ d) (h2 : d ≤ 2047) :
    stretch (squash d) ≤ d := by
  obtain ⟨c1, c2, c3, c4⟩ :=
    stretch_char (squash d) (squash_nonneg d) (squash_le_4094_of_le d h2)
  rcases c4 with h | h
  · omega
  · by_contra hc
    push_neg at hc
    have : squash d ≤ squash (stretch (squash d) - 1) :=
      squash_mono h1 (by omega) (by omega)
    omega

lemma squash_stretch_squash {d : Int} (h1 : -2047 ≤ d) (h2 : d ≤ 2047) :
    squash (stretch (squash d)) = squash d := by
  obtain ⟨c1, c2, c3, c4⟩ :=
    stretch_char (squash d) (squash_nonneg d) (squash_le_4094_of_le d h2)
  have hle := stretch_squash_le h1 h2
  have : squash (stretch (squash d)) ≤ squash d := squash_mono c1 hle h2
  omega

lemma squash_stretch_eq_iff {p : Int} (h0 : 0 ≤ p) (h1 : p ≤ 4095) :
    squash (stretch p) = p ↔ ∃ d, -2047 ≤ d ∧ d ≤ 2047 ∧ squash d = p := by
  rcases eq_or_lt_of_le h1 with h4095 | hlt
  · constructor
    · intro h
      have hs : stretch p = 2047 := by unfold stretch; rw [if_pos h4095]
      rw [hs, squash_2047] at h
      omega
    · rintro ⟨d, hd1, hd2, hd3⟩
      have := squash_le_4094_of_le d hd2
      omega
  · have hp : p ≤ 4094 := by omega
    obtain ⟨c1, c2, c3, c4⟩ := stretch_char p h0 hp
    constructor
    · intro h
      exact ⟨stretch p, c1, c2, h⟩
    · rintro ⟨d, hd1, hd2, hd3⟩
      have hxd : stretch p ≤ d := by
        rcases c4 with h | h
        · omega
        · by_contra hc
          push_neg at hc
          have : squash d ≤ squash (stretch p - 1) :=
            squash_mono hd1 (by omega) (by omega)
          omega
      have : squash (stretch p) ≤ squash d := squash_mono c1 hxd hd2
      omega

/-! ## ilog (paq8hp.cpp lines 249-263)

The Ilog constructor integrates 1/x numerically: x starts at 14155776 and
accumulates 774541002/(2i-1) for i = 2..65535; the table entry is x >> 24.
Entries 0 and 1 stay at the zeroed default. -/

/-- The running accumulator x of the Ilog constructor after processing
index i (U32 arithmetic). -/
def ilogX : Nat → Nat
  | 0 => 14155776
  | 1 => 14155776
  | n + 2 => (ilogX (n + 1) + 774541002 / (2 * (n + 2) - 1)) % 4294967296

/-- The Ilog table entry at index i. -/
def ilogT (i : Nat) : Nat := if i < 2 then 0 else ilogX i >>> 24

/-- ilog applied through the U16 operator argument. -/
def ilog (x : Nat) : Nat := ilogT (x % 65536)

/-! ## Quantisation tables (paq8hp.cpp lines 1224-1226) -/

/-- WRT_mpw from paq8hp.cpp line 1225 (high-nibble word class codes). -/
def WRT_mpw : Nat → Nat
  | 0 => 3 | 1 => 3 | 2 => 3 | 3 => 2 | 4 => 2 | 5 => 2 | 6 => 1 | 7 => 1
  | 8 => 1 | 9 => 1 | 10 => 1 | 11 => 1 | 12 => 1 | 13 => 0 | 14 => 0
  | 15 => 0 | _ => 0

/-- WRT_mtt from paq8hp.cpp line 1226. -/
def WRT_mtt : Nat → Nat
  | 0 => 0 | 1 => 0 | 2 => 1 | 3 => 2 | 4 => 3 | 5 => 4 | 6 => 5 | 7 => 5
  | 8 => 6 | 9 => 6 | 10 => 6 | 11 => 6 | 12 => 6 | 13 => 7 | 14 => 7
  | 15 => 7 | _ => 0

/-- tri from paq8hp.cpp line 1225. -/
def tri : Nat → Nat
  | 0 => 0 | 1 => 4 | 2 => 3 | 3 => 7 | _ => 0

/-- trj from paq8hp.cpp line 1225. -/
def trj : Nat → Nat
  | 0 => 0 | 1 => 6 | 2 => 6 | 3 => 12 | _ => 0

/-- U32 wrap. -/
def u32 (n : Nat) : Nat := n % 4294967296

/-! ## Global context (paq8hp.cpp lines 236-244) and its per-bit update
(Predictor::update, lines 1348-1379)

The file-scope context variables are packaged into one record.  The ring
buffer is a total function indexed with the power-of-two mask, as in Buf. -/

structure Globals where
  pos : Nat
  c0 : Nat
  bpos : Nat
  y : Nat
  b1 : Nat
  b2 : Nat
  b3 : Nat
  b4 : Nat
  b5 : Nat
  b6 : Nat
  b7 : Nat
  b8 : Nat
  c4 : Nat
  x5 : Nat
  w4 : Nat
  w5 : Nat
  f4 : Nat
  tt : Nat
  sm_shft : Nat
  sm_add : Nat
  sm_add_y : Nat
  buf : Nat → Nat
  bufmask : Nat

/-- Byte-boundary update, part 1 (lines 1354-1360): write the completed
byte into the ring buffer, advance pos, and update the adaptive smoothing
knobs.  The c0 field afterwards holds the completed byte (c0 -= 256). -/
def smStep (g : Globals) : Globals :=
  let c0n := g.c0 + g.c0 + g.y
  let g1 := { g with
                pos := g.pos + 1,
                buf := fun k => if k = (g.pos &&& g.bufmask) then c0n % 256 else g.buf k,
                c0 := c0n - 256 }
  if g1.pos ≤ 1048576 then
    let sa := if g1.pos = 1048576 then (9, 66046)
      else if g1.pos = 524288 then (8, 65790)
      else (g.sm_shft, g.sm_add)
    { g1 with sm_shft := sa.1, sm_add := sa.2, sm_add_y := sa.2 &&& neg32 g.y }
  else g1

/-- Byte-boundary update, part 2 (lines 1361-1364): the w4/w5 shift
registers.  c0 here is the completed byte; b1 is still the prior byte. -/
def wrtStep (g : Globals) : Globals :=
  let i0 := WRT_mpw (g.c0 >>> 4)
  let i1 := if g.b1 = 12 then 2 else i0
  { g with w4 := u32 (g.w4 * 4 + i0), w5 := u32 (g.w5 * 4 + i1) }

/-- Byte-boundary update, part 3 (lines 1365-1366): shift the byte queue. -/
def shiftStep (g : Globals) : Globals :=
  { g with b8 := g.b7, b7 := g.b6, b6 := g.b5, b5 := g.b4,
           b4 := g.b3, b3 := g.b2, b2 := g.b1, b1 := g.c0 }

/-- The sentence punctuation byte class of line 1367: `.`, `O`, `M`, `!`,
`)` and the value of the expression quote-brace arithmetic, 82. -/
def PunctByte (b : Nat) : Prop :=
  b = 46 ∨ b = 79 ∨ b = 77 ∨ b = 33 ∨ b = 41 ∨ b = 82

instance (b : Nat) : Decidable (PunctByte b) := by
  unfold PunctByte; infer_instance

/-- Byte-boundary update, part 4 (lines 1367-1371): the sentence
punctuation class, bytes 46 79 77 33 41 82. -/
def punctStep (g : Globals) : Globals :=
  if PunctByte g.c0 then
    let g1 := { g with
                  w5 := u32 (g.w5 * 256) ||| 1023,
                  x5 := u32 (g.x5 * 256 + g.c0),
                  f4 := (g.f4 &&& 4294967280) + 2 }
    let g2 := if g1.c0 ≠ 33 ∧ g1.c0 ≠ 79 then { g1 with w4 := g1.w4 ||| 12 } else g1
    if g2.c0 ≠ 33 then { g2 with b2 := 46, tt := (g2.tt &&& 4294967288) + 1 } else g2
  else g

/-- Byte-boundary update, part 5 (lines 1372-1377): c4/x5 shifts, the
space fold for c0, the f4 and tt registers, and the c0 reset. -/
def tailStep (g : Globals) : Globals :=
  let g1 := { g with c4 := u32 (g.c4 * 256 + g.c0), x5 := u32 (g.x5 * 256 + g.c0) }
  let cz := if g1.c0 = 32 then 31 else g1.c0
  { g1 with f4 := u32 (g1.f4 * 16 + (cz >>> 4)),
            tt := u32 (g1.tt * 8 + WRT_mtt (cz >>> 4)), c0 := 1 }

/-- The full byte-boundary block of Predictor::update. -/
def byteBoundary (g : Globals) : Globals :=
  tailStep (punctStep (shiftStep (wrtStep (smStep g))))

/-- The global-context part of Predictor::update (lines 1351-1379):
shift y into c0, run the byte-boundary block when a byte completes, and
advance bpos. -/
def updateGlobals (g : Globals) : Globals :=
  let g1 := if 256 ≤ g.c0 + g.c0 + g.y then byteBoundary g
            else { g with c0 := g.c0 + g.c0 + g.y }
  { g1 with bpos := (g1.bpos + 1) % 8 }

/-- PAQ8Perceive restricted to the global context (lines 1420-1428): set y
and sm_add_y from the observed bit, then run the update. -/
def paq8PerceiveG (g : Globals) (bit : Nat) : Globals :=
  updateGlobals { g with y := bit, sm_add_y := if bit ≠ 0 then g.sm_add else 0 }

/-! ## StateMap (paq8hp.cpp lines 589-611)

`p(cx)` nudges the entry of the previously queried context toward the
last bit (through the globals sm_add_y and sm_shft) and then returns the
entry for cx, scaled from 16 to 12 bits. -/

structure SMState where
  cxt : Nat
  t : Nat → Nat

/-- StateMap::p from paq8hp.cpp lines 595-600.  The U16 store wraps the
int update value modulo 2^16. -/
def smP (g : Globals) (s : SMState) (cx : Nat) : SMState × Nat :=
  let q : Int := s.t s.cxt
  let upd : Nat := ((q + asr (((g.sm_add_y : Int)) - q) g.sm_shft) % 65536).toNat
  let t2 := fun k => if k = s.cxt then upd else s.t k
  ({ cxt := cx, t := t2 }, t2 cx >>> 4)

/-! ## ContextMap bucket (paq8hp.cpp lines 831-872)

A 64-byte bucket holds 7 checksums, one LRU byte (two slot nibbles) and a
7 x 7 state matrix.  E::get finds the slot matching a checksum, or
replaces the lowest-priority slot outside the LRU pair. -/

structure EB where
  chk : Nat → Nat
  last : Nat
  bh : Nat → Nat → Nat

/-- Replacement at slot bi: install the checksum, reset the LRU byte to
0xf0|bi, and zero the 7 bytes of the slot (the memset). -/
def ebReplace (st : EB) (ch bi : Nat) : EB :=
  { chk := fun i => if i = bi then ch else st.chk i,
    last := 240 ||| bi,
    bh := fun i k => if i = bi ∧ k < 7 then 0 else st.bh i k }

/-- The search loop of E::get (lines 865-871): i counts up with fuel
7 - i; b and bi track the lowest priority seen outside the LRU pair. -/
def egetLoop (st : EB) (ch : Nat) : Nat → Nat → Nat → Nat → EB × Nat
  | 0, _, _, bi => (ebReplace st ch bi, bi)
  | f + 1, i, b, bi =>
      if st.chk i = ch then ({ st with last := (st.last * 16 + i) % 256 }, i)
      else if st.last % 16 ≠ i ∧ st.last / 16 ≠ i ∧ st.bh i 0 < b then
        egetLoop st ch f (i + 1) (st.bh i 0) i
      else egetLoop st ch f (i + 1) b bi

/-- E::get from paq8hp.cpp lines 862-872.  ch is the U16 checksum
argument, j the distinguisher added into it; the first test short-cuts to
the slot at the head of the LRU queue. -/
def EB.get (st : EB) (ch j : Nat) : EB × Nat :=
  let ch2 := (ch + j) % 65536
  if st.chk (st.last % 16) = ch2 then (st, st.last % 16)
  else egetLoop st ch2 7 0 65535 0

/-! ## Run prediction inside ContextMap::mix1 (paq8hp.cpp lines 949-959)

rc is the stored run record count byte runp[i][0], rp1 the stored last
byte runp[i][1], cc the partial byte c0 and bp the bit position. -/

/-- The value ContextMap::mix1 adds to the mixer for the run model.  The
divisions act on nonnegative ints, where C truncation and floor agree. -/
def runPredValue (rc rp1 cc bp : Nat) : Int :=
  if (rp1 + 256) >>> (8 - bp) = cc then
    let b : Int := (((rp1 >>> (7 - bp)) &&& 1 : Nat) : Int) * 2 - 1
    let c : Int := (ilog (rc + 1) : Int)
    b * (if rc &&& 1 ≠ 0 then (c * 15) / 4 else c * 13)
  else 0

/-! ## ByteMixer (byte-mixer.cpp)

The accumulator entries are C floats; only which slot changes and by which
added value matters here, so the entry type is any type with an addition,
with float addition as one instance. -/

structure ByteMixerSt (α : Type) where
  vocab : Nat → Bool
  byte_map : Nat → Nat
  inputs : Nat → α
  vocab_size : Nat
  offset : Nat

/-- The running offset of the ByteMixer constructor loop: byte_map_[i] is
the number of vocabulary bytes below i (byte-mixer.cpp lines 11-14). -/
def bmOff (v : Nat → Bool) : Nat → Nat
  | 0 => 0
  | n + 1 => bmOff v n + (if v n then 1 else 0)

/-- ByteMixer::SetInput from byte-mixer.cpp lines 18-23. -/
def ByteMixerSt.SetInput [Add α] (bm : ByteMixerSt α) (index : Nat) (val : α) :
    ByteMixerSt α :=
  if bm.vocab index = false then bm
  else { bm with
          inputs := fun k => if k = bm.offset then bm.inputs bm.offset + val else bm.inputs k,
          offset := if bm.offset + 1 = bm.vocab_size then 0 else bm.offset + 1 }

/-! ## Mixer (paq8hp.cpp lines 404-543)

The weight matrix, input vector and per-slot outputs are total functions;
constructor initialisation makes them constant, matching the in-bounds
content of the C arrays (out-of-bounds indices are never read under the
asserts of the source).  The context offsets stored by set() and the base
written by p() are nonnegative in every use the source makes (asserted
there), so they are carried as Nats. -/

/-- n rounded up to a multiple of 8, the effect of `(n+7)&-8` on the
nonnegative sizes used by the Mixer. -/
def roundUp8 (n : Nat) : Nat := (n + 7) / 8 * 8

/-- Clamp to a signed 16-bit weight, from train (lines 447-449). -/
def clampW (v : Int) : Int :=
  if v < -32768 then -32768 else if 32767 < v then 32767 else v

/-- Partial sums of dot_product (lines 427-433): k pairs processed, each
pair contributing `(t[2i]*w[2i]+t[2i+1]*w[2i+1]) >> 8`. -/
def dotpAux (t w : Nat → Int) : Nat → Int
  | 0 => 0
  | k + 1 => dotpAux t w k + asr (t (2 * k) * w (2 * k) + t (2 * k + 1) * w (2 * k + 1)) 8

/-- dot_product of n elements, n rounded up to a multiple of 8. -/
def dotp (t w : Nat → Int) (n : Nat) : Int := dotpAux t w (roundUp8 n / 2)

/-- train (lines 443-451) on the weight slice starting at off: every
written index gets `w[i] += ((t[i]*err*2 >> 16)+1) >> 1`, clamped. -/
def trainSlice (t w : Nat → Int) (off n : Nat) (err : Int) : Nat → Int :=
  fun k => if off ≤ k ∧ k < off + roundUp8 n then
    clampW (w k + asr (asr (t (k - off) * err * 2) 16 + 1) 1)
  else w k

structure MixerCore where
  N : Nat
  M : Nat
  S : Nat
  wx : Nat → Int
  cxt : Nat → Nat
  ncxt : Nat
  base : Nat
  pr : Nat → Int
  tx : Nat → Int
  nx : Nat

/-- The training error of Mixer::update for context slot i (line 472):
`err = ((y<<12)-pr[i])*7`. -/
def errOf (m : MixerCore) (y i : Nat) : Int := ((y : Int) * 4096 - m.pr i) * 7

/-- The update loop of Mixer::update after processing slots 0..i-1. -/
def updLoop (m : MixerCore) (y : Nat) : Nat → (Nat → Int)
  | 0 => m.wx
  | i + 1 => trainSlice m.tx (updLoop m y i) (m.cxt i * m.N) m.nx (errOf m y i)

/-- Mixer::update (lines 470-477). -/
def mcUpdate (m : MixerCore) (y : Nat) : MixerCore :=
  { m with wx := updLoop m y m.ncxt, nx := 0, base := 0, ncxt := 0 }

/-- Mixer::update2 (lines 479-482), used on the combining child mixer. -/
def mcUpdate2 (m : MixerCore) (y : Nat) : MixerCore :=
  { m with wx := trainSlice m.tx m.wx 0 m.nx (Int.tdiv (((y : Int) * 4096 - (m.base : Int)) * 3) 2),
           nx := 0 }

/-- Mixer::add (lines 485-488): tx is an array of shorts, so the stored
value is the short conversion of the int argument. -/
def mcAdd (m : MixerCore) (x : Int) : MixerCore :=
  { m with tx := fun k => if k = m.nx then toShort x else m.tx k, nx := m.nx + 1 }

/-- Mixer::mul (lines 490-494): reads tx[nx], scales it and stores it back
at nx, then increments nx. -/
def mcMul (m : MixerCore) (x : Int) : MixerCore :=
  { m with tx := fun k => if k = m.nx then toShort (Int.tdiv (m.tx m.nx * x) 4) else m.tx k,
           nx := m.nx + 1 }

/-- Mixer::set (lines 497-504). -/
def mcSet (m : MixerCore) (cx range : Nat) : MixerCore :=
  { m with cxt := fun k => if k = m.ncxt then m.base + cx else m.cxt k,
           ncxt := m.ncxt + 1, base := m.base + range }

/-- The `while (nx&7) tx[nx++]=0` padding at the top of Mixer::p. -/
def padCore (m : MixerCore) : MixerCore :=
  { m with tx := fun k => if m.nx ≤ k ∧ k < roundUp8 m.nx then 0 else m.tx k,
           nx := roundUp8 m.nx }

structure MixerSt where
  top : MixerCore
  child : Option MixerCore

/-- The per-slot loop of Mixer::p when a child exists (lines 511-516):
returns the child after the add calls and the updated pr array. -/
def childLoop (t : MixerCore) (c : MixerCore) : Nat → MixerCore × (Nat → Int)
  | 0 => (c, t.pr)
  | i + 1 =>
      let s := childLoop t c i
      let dp0 := dotp t.tx (fun k => t.wx (t.cxt i * t.N + k)) t.nx
      let dp := asr (dp0 * 9) 9
      (mcAdd s.1 dp, fun k => if k = i then squash dp else s.2 k)

/-- Mixer::p (lines 507-524) on the two-level mixer, with the global bit
y needed by the update2 call on the child. -/
def mixP (st : MixerSt) (y : Nat) : MixerSt × Int :=
  let t1 := padCore st.top
  match st.child with
  | some c =>
      let c1 := mcUpdate2 c y
      let s := childLoop t1 c1 t1.ncxt
      let c2 := padCore s.1
      let z := dotp c2.tx c2.wx c2.nx
      let c3 := { c2 with base := (squash (asr (z * 15) 13)).toNat }
      (⟨{ t1 with pr := s.2 }, some c3⟩, squash (asr z 9))
  | none =>
      let z := dotp t1.tx t1.wx t1.nx
      let t2 := { t1 with base := (squash (asr (z * 15) 13)).toNat }
      (⟨t2, none⟩, squash (asr z 9))

/-- Mixer::Mixer (lines 533-543) for one level: weights all w, outputs
all 2048, everything else zeroed. -/
def mcInit (n m s : Nat) (w : Int) : MixerCore :=
  { N := roundUp8 n, M := m, S := s, wx := fun _ => w, cxt := fun _ => 0,
    ncxt := 0, base := 0, pr := fun _ => 2048, tx := fun _ => 0, nx := 0 }

/-- Mixer construction including the combining child built when S > 1
(with initial weight 0x7fff). -/
def mixInit (n m s : Nat) (w : Int) : MixerSt :=
  ⟨mcInit n m s w, if 1 < s then some (mcInit s 1 1 32767) else none⟩

/-- Mixer states reachable through the public operations from any
construction. -/
inductive MReach : MixerSt → Prop where
  | init : ∀ n m s w, MReach (mixInit n m s w)
  | add : ∀ st x, MReach st → MReach ⟨mcAdd st.top x, st.child⟩
  | mul : ∀ st x, MReach st → MReach ⟨mcMul st.top x, st.child⟩
  | set : ∀ st cx range, MReach st → MReach ⟨mcSet st.top cx range, st.child⟩
  | update : ∀ st y, MReach st → MReach ⟨mcUpdate st.top y, st.child⟩
  | p : ∀ st y, MReach st → MReach (mixP st y).1

/-- The per-slot outputs pr of the top mixer stay 12-bit: they start at
2048 and are only ever rewritten with squash values. -/
lemma mreach_pr_bounds {st : MixerSt} (h : MReach st) :
    ∀ i, 0 ≤ st.top.pr i ∧ st.top.pr i ≤ 4095 := by
  induction h with
  | init n m s w => intro i; constructor <;> norm_num [mixInit, mcInit]
  | add st x _ ih => exact ih
  | mul st x _ ih => exact ih
  | set st cx range _ ih => exact ih
  | update st y _ ih => exact ih
  | p st y hr ih =>
      intro i
      unfold mixP
      cases hc : st.child with
      | none => simpa [padCore] using ih i
      | some c =>
          simp only
          have key : ∀ n k, 0 ≤ (childLoop (padCore st.top) (mcUpdate2 c y) n).2 k ∧
              (childLoop (padCore st.top) (mcUpdate2 c y) n).2 k ≤ 4095 := by
            intro n
            induction n with
            | zero => intro k; simpa [childLoop, padCore] using ih k
            | succ n ihn =>
                intro k
                simp only [childLoop]
                split
                · exact ⟨squash_nonneg _, squash_le_4095 _⟩
                · exact ihn k
          exact key st.top.ncxt i

/-! ## hash (paq8hp.cpp lines 616-619) -/

/-- The 2-5 int hash; the third argument defaults to 0xffffffff at call
sites that pass two values. -/
def hash32 (a b c : Nat) : Nat :=
  let h := u32 (a * 110002499 + b * 30005491 + c * 50004239)
  h ^^^ (h >>> 9) ^^^ (a >>> 3) ^^^ (b >>> 3) ^^^ (c >>> 4)

/-! ## APM (paq8hp.cpp lines 556-578)

The table is a total function over Int indices; the constructor content is
periodic with period 33, matching the in-bounds initialisation
`t[i] = t[i-33]`.  Entries are U16, wrapped at each write. -/

structure ApmSt where
  index : Int
  t : Int → Nat

/-- One anchor update of APM::p: `t[i] += (g - t[i]) >> rate`, with the
U16 store wrapping modulo 2^16. -/
def apmNudge (g : Int) (rate : Nat) (v : Nat) : Nat :=
  (((v : Int) + asr (g - (v : Int)) rate) % 65536).toNat

/-- APM::p from paq8hp.cpp lines 562-571.  The two anchor updates touch
index and index+1 of the previous query; the second read would see the
first write if the indices coincided, exactly as in the source. -/
def apmP (y : Nat) (ap : ApmSt) (pr cxt : Int) (rate : Nat) : ApmSt × Int :=
  let st := stretch pr
  let g : Int := (y : Int) * 65536 + (y : Int) * 2 ^ rate - (y : Int) * 2
  let t1 : Int → Nat := fun k => if k = ap.index then apmNudge g rate (ap.t ap.index) else ap.t k
  let t2 : Int → Nat := fun k => if k = ap.index + 1 then apmNudge g rate (t1 (ap.index + 1)) else t1 k
  let w : Int := st % 128
  let idx := asr (st + 2048) 7 + cxt * 33
  (⟨idx, t2⟩, asr ((t2 idx : Int) * (128 - w) + (t2 (idx + 1) : Int) * w) 11)

/-- APM::APM (lines 575-578): anchors of the identity map, repeated with
period 33 over every context. -/
def apmInit : ApmSt :=
  ⟨0, fun i => (squash ((i % 33 - 16) * 128)).toNat * 16⟩

/-- The APM table entries are 16-bit. -/
def ApmInv (ap : ApmSt) : Prop := ∀ k, ap.t k < 65536

lemma apmNudge_lt (g : Int) (rate : Nat) (v : Nat) : apmNudge g rate v < 65536 := by
  unfold apmNudge
  have h1 := Int.emod_nonneg ((v : Int) + asr (g - (v : Int)) rate)
    (show (65536 : Int) ≠ 0 by norm_num)
  have h2 := Int.emod_lt_of_pos ((v : Int) + asr (g - (v : Int)) rate)
    (show (0 : Int) < 65536 by norm_num)
  omega

lemma apmInit_inv : ApmInv apmInit := by
  intro k
  show (squash ((k % 33 - 16) * 128)).toNat * 16 < 65536
  have h := squash_le_4095 ((k % 33 - 16) * 128)
  have h0 := squash_nonneg ((k % 33 - 16) * 128)
  omega

lemma apmP_inv {ap : ApmSt} (h : ApmInv ap) (y : Nat) (pr cxt : Int) (rate : Nat) :
    ApmInv (apmP y ap pr cxt rate).1 := by
  intro k
  show (if k = ap.index + 1 then _ else if k = ap.index then _ else ap.t k) < 65536
  split
  · exact apmNudge_lt _ _ _
  · split
    · exact apmNudge_lt _ _ _
    · exact h k

/-- The interpolated APM output is a 12-bit probability whenever the
table entries are 16-bit. -/
lemma interp_range (T : Int → Nat) (hT : ∀ k, T k < 65536) (idx : Int) {w : Int}
    (hw0 : 0 ≤ w) (hw1 : w < 128) :
    0 ≤ asr ((T idx : Int) * (128 - w) + (T (idx + 1) : Int) * w) 11 ∧
      asr ((T idx : Int) * (128 - w) + (T (idx + 1) : Int) * w) 11 ≤ 4095 := by
  have ha1 : (T idx : Int) ≤ 65535 := by have := hT idx; omega
  have hb1 : (T (idx + 1) : Int) ≤ 65535 := by have := hT (idx + 1); omega
  have ha0 : (0 : Int) ≤ (T idx : Int) := Int.ofNat_nonneg _
  have hb0 : (0 : Int) ≤ (T (idx + 1) : Int) := Int.ofNat_nonneg _
  constructor
  · apply asr_nonneg; nlinarith
  · have hnum : (T idx : Int) * (128 - w) + (T (idx + 1) : Int) * w ≤ 65535 * 128 := by
      nlinarith
    calc asr ((T idx : Int) * (128 - w) + (T (idx + 1) : Int) * w) 11
        = ((T idx : Int) * (128 - w) + (T (idx + 1) : Int) * w) / 2048 := by
          rw [asr_eq_ediv]; norm_num
      _ ≤ (65535 * 128 : Int) / 2048 := Int.ediv_le_ediv (by norm_num) hnum
      _ ≤ 4095 := by decide

lemma apmP_range {ap : ApmSt} (h : ApmInv ap) (y : Nat) (pr cxt : Int) (rate : Nat) :
    0 ≤ (apmP y ap pr cxt rate).2 ∧ (apmP y ap pr cxt rate).2 ≤ 4095 := by
  have hw0 : 0 ≤ stretch pr % 128 := Int.emod_nonneg _ (by norm_num)
  have hw1 : stretch pr % 128 < 128 := Int.emod_lt_of_pos _ (by norm_num)
  exact interp_range _ (apmP_inv h y pr cxt rate) _ hw0 hw1

/-! ## Predictor (paq8hp.cpp lines 1338-1428)

The predictor state packages the global context, the last prediction pr,
the failure counters and the six APM stages.  The context-model subsystem
(contextModel2 with its maps and mixer) is abstracted: by Mixer::p, its
return value is `squash(z >> 9)` for the final dot product z of the
combining mixer, so the update step below takes that z as an oracle input
ranging over all Ints.  Every theorem about reachable predictor states is
therefore quantified over strictly more behaviours than the concrete
models can produce. -/

structure PState where
  g : Globals
  pr : Int
  fails : Nat
  failz : Nat
  failcount : Int
  a1 : ApmSt
  a2 : ApmSt
  a3 : ApmSt
  a4 : ApmSt
  a5 : ApmSt
  a6 : ApmSt

/-- Predictor::p (lines 1342): a const accessor of the stored pr; it reads
and cannot write, so its embedding returns the state unchanged. -/
def predictP (s : PState) : PState × Int := (s, s.pr)

/-- Predictor::update (lines 1348-1407) after y has been set: global
context update, failure counter shifts, the probability pipeline through
the six APMs, and the final blend.  oracle is the combining-mixer dot
product behind the contextModel2 return value. -/
def pstep (s : PState) (oracle : Int) : PState :=
  let g2 := updateGlobals s.g
  let failcount1 := if s.fails &&& 128 ≠ 0 then s.failcount - 1 else s.failcount
  let fails1 := u32 (s.fails * 2)
  let failz1 := u32 (s.failz * 2)
  let pr0 : Int := if s.g.y ≠ 0 then ((s.pr.toNat ^^^ 4095 : Nat) : Int) else s.pr
  let fails2 := if 1820 ≤ pr0 then fails1 + 1 else fails1
  let failcount2 := if 1820 ≤ pr0 then failcount1 + 1 else failcount1
  let failz2 := if 848 ≤ pr0 then failz1 + 1 else failz1
  let prc : Int := squash (asr oracle 9)
  let rate : Nat := 6 + (if 3670016 < g2.pos then 1 else 0) +
    (if 14680064 < g2.pos then 1 else 0)
  let r1 := apmP g2.y s.a1 prc (g2.c0 : Int) 3
  let pu1 : Int := asr (r1.2 + 7 * prc + 4) 3
  let pz1 : Int := failcount2 + 1 + (tri ((fails2 >>> 5) &&& 3) : Int) +
    (trj ((fails2 >>> 3) &&& 3) : Int) + (trj ((fails2 >>> 1) &&& 3) : Int) +
    (if fails2 &&& 1 ≠ 0 then 8 else 0)
  let pz2 : Int := Int.tdiv pz1 2
  let r4 := apmP g2.y s.a4 pu1
    (((g2.c0 * 2) ^^^ (hash32 g2.b1 ((g2.x5 >>> 8) &&& 255) ((g2.x5 >>> 16) &&& 33023) &&& 131071) : Nat) : Int) rate
  let r2 := apmP g2.y s.a2 prc
    (((g2.c0 * 8) ^^^ (hash32 29 (failz2 &&& 2047) 4294967295 &&& 32767) : Nat) : Int) (rate + 1)
  let r5 := apmP g2.y s.a5 r2.2
    ((hash32 g2.c0 (g2.w5 &&& 1048575) 4294967295 &&& 65535 : Nat) : Int) rate
  let r3 := apmP g2.y s.a3 prc
    (((g2.c0 * 32) ^^^ (hash32 19 (g2.x5 &&& 8454143) 4294967295 &&& 32767) : Nat) : Int) rate
  let r6 := apmP g2.y s.a6 r4.2
    (((g2.c0 * 4) ^^^ (hash32 (i2u32 (min 9 pz2)) (g2.x5 &&& 33023) 4294967295 &&& 65535) : Nat) : Int) rate
  let prn : Int := if fails2 &&& 255 ≠ 0
    then asr (r3.2 * 6 + r4.2 + r5.2 * 11 + r6.2 * 14 + 16) 5
    else asr (r3.2 * 4 + r4.2 * 5 + r5.2 * 12 + r6.2 * 11 + 16) 5
  { g := g2, pr := prn, fails := fails2, failz := failz2, failcount := failcount2,
    a1 := r1.1, a2 := r2.1, a3 := r3.1, a4 := r4.1, a5 := r5.1, a6 := r6.1 }

/-- PAQ8Perceive (lines 1420-1428): set y and sm_add_y from the observed
bit, then run the update. -/
def perceiveStep (s : PState) (bit : Nat) (oracle : Int) : PState :=
  pstep { s with g :=
    { s.g with y := bit, sm_add_y := if bit ≠ 0 then s.g.sm_add else 0 } } oracle

/-- The initial global context (file-scope initialisers, lines 236-244),
with the ring buffer mask fixed by PAQ8Init. -/
def g0 (mask : Nat) : Globals :=
  { pos := 0, c0 := 1, bpos := 0, y := 0, b1 := 0, b2 := 0, b3 := 0, b4 := 0,
    b5 := 0, b6 := 0, b7 := 0, b8 := 0, c4 := 0, x5 := 0, w4 := 0, w5 := 0,
    f4 := 0, tt := 0, sm_shft := 7, sm_add := 65662, sm_add_y := 0,
    buf := fun _ => 0, bufmask := mask }

/-- The freshly constructed predictor: pr = 2048, zeroed counters, and
identity-map APM stages. -/
def pstate0 (mask : Nat) : PState :=
  { g := g0 mask, pr := 2048, fails := 0, failz := 0, failcount := 0,
    a1 := apmInit, a2 := apmInit, a3 := apmInit, a4 := apmInit,
    a5 := apmInit, a6 := apmInit }

/-- Predictor states reachable from construction through perceive steps,
with arbitrary observed bits and arbitrary context-model behaviour. -/
inductive PReach : PState → Prop where
  | init : ∀ mask, PReach (pstate0 mask)
  | step : ∀ s bit oracle, PReach s → bit ≤ 1 → PReach (perceiveStep s bit oracle)

/-- The predictor invariant: pr is a 12-bit probability and every APM
table entry is 16-bit. -/
def PInv (s : PState) : Prop :=
  0 ≤ s.pr ∧ s.pr ≤ 4095 ∧ ApmInv s.a1 ∧ ApmInv s.a2 ∧ ApmInv s.a3 ∧
    ApmInv s.a4 ∧ ApmInv s.a5 ∧ ApmInv s.a6

/-- The final two-branch blend of Predictor::update maps four 12-bit
inputs to a 12-bit output. -/
lemma blend_range (c : Prop) [Decidable c] {p3 p4 p5 p6 : Int}
    (h3 : 0 ≤ p3 ∧ p3 ≤ 4095) (h4 : 0 ≤ p4 ∧ p4 ≤ 4095)
    (h5 : 0 ≤ p5 ∧ p5 ≤ 4095) (h6 : 0 ≤ p6 ∧ p6 ≤ 4095) :
    0 ≤ (if c then asr (p3 * 6 + p4 + p5 * 11 + p6 * 14 + 16) 5
      else asr (p3 * 4 + p4 * 5 + p5 * 12 + p6 * 11 + 16) 5) ∧
    (if c then asr (p3 * 6 + p4 + p5 * 11 + p6 * 14 + 16) 5
      else asr (p3 * 4 + p4 * 5 + p5 * 12 + p6 * 11 + 16) 5) ≤ 4095 := by
  have key : ∀ x : Int, 0 ≤ x → x ≤ 131056 → 0 ≤ asr x 5 ∧ asr x 5 ≤ 4095 := by
    intro x hx0 hx1
    constructor
    · exact asr_nonneg hx0
    · calc asr x 5 = x / 32 := by rw [asr_eq_ediv]; norm_num
        _ ≤ (131056 : Int) / 32 := Int.ediv_le_ediv (by norm_num) hx1
        _ ≤ 4095 := by decide
  refine ⟨?_, ?_⟩
  · split
    · exact (key _ (by omega) (by omega)).1
    · exact (key _ (by omega) (by omega)).1
  · split
    · exact (key _ (by omega) (by omega)).2
    · exact (key _ (by omega) (by omega)).2

lemma pstep_inv {s : PState} (h : PInv s) (oracle : Int) : PInv (pstep s oracle) := by
  obtain ⟨hp0, hp1, i1, i2, i3, i4, i5, i6⟩ := h
  unfold pstep
  simp only
  refine ⟨(blend_range _ (apmP_range i3 _ _ _ _) (apmP_range i4 _ _ _ _)
      (apmP_range i5 _ _ _ _) (apmP_range i6 _ _ _ _)).1,
    (blend_range _ (apmP_range i3 _ _ _ _) (apmP_range i4 _ _ _ _)
      (apmP_range i5 _ _ _ _) (apmP_range i6 _ _ _ _)).2,
    apmP_inv i1 _ _ _ _, apmP_inv i2 _ _ _ _, apmP_inv i3 _ _ _ _,
    apmP_inv i4 _ _ _ _, apmP_inv i5 _ _ _ _, apmP_inv i6 _ _ _ _⟩

lemma preach_inv {s : PState} (h : PReach s) : PInv s := by
  induction h with
  | init mask =>
      refine ⟨by norm_num [pstate0], by norm_num [pstate0], ?_, ?_, ?_, ?_, ?_, ?_⟩ <;>
        exact apmInit_inv
  | step s bit oracle _ hbit ih =>
      unfold perceiveStep
      refine pstep_inv ?_ oracle
      exact ih

/-! ## Field bookkeeping across the byte-boundary stages -/

lemma smStep_fields (g : Globals) :
    (smStep g).c0 = g.c0 + g.c0 + g.y - 256 ∧ (smStep g).w4 = g.w4 ∧
    (smStep g).w5 = g.w5 ∧ (smStep g).b1 = g.b1 ∧ (smStep g).pos = g.pos + 1 ∧
    (smStep g).y = g.y := by
  unfold smStep
  dsimp only
  split
  · exact ⟨rfl, rfl, rfl, rfl, rfl, rfl⟩
  · exact ⟨rfl, rfl, rfl, rfl, rfl, rfl⟩

lemma wrtStep_fields (g : Globals) :
    (wrtStep g).w4 = u32 (g.w4 * 4 + WRT_mpw (g.c0 >>> 4)) ∧
    (wrtStep g).w5 = u32 (g.w5 * 4 + (if g.b1 = 12 then 2 else WRT_mpw (g.c0 >>> 4))) ∧
    (wrtStep g).c0 = g.c0 ∧ (wrtStep g).sm_shft = g.sm_shft ∧
    (wrtStep g).sm_add = g.sm_add ∧ (wrtStep g).sm_add_y = g.sm_add_y ∧
    (wrtStep g).pos = g.pos :=
  ⟨rfl, rfl, rfl, rfl, rfl, rfl, rfl⟩

lemma shiftStep_fields (g : Globals) :
    (shiftStep g).w4 = g.w4 ∧ (shiftStep g).w5 = g.w5 ∧ (shiftStep g).c0 = g.c0 ∧
    (shiftStep g).sm_shft = g.sm_shft ∧ (shiftStep g).sm_add = g.sm_add ∧
    (shiftStep g).sm_add_y = g.sm_add_y ∧ (shiftStep g).pos = g.pos :=
  ⟨rfl, rfl, rfl, rfl, rfl, rfl, rfl⟩

lemma punctStep_id {g : Globals} (h : ¬PunctByte g.c0) : punctStep g = g := by
  unfold punctStep
  rw [if_neg h]

lemma punctStep_pres (g : Globals) :
    (punctStep g).sm_shft = g.sm_shft ∧ (punctStep g).sm_add = g.sm_add ∧
    (punctStep g).sm_add_y = g.sm_add_y ∧ (punctStep g).pos = g.pos := by
  unfold punctStep
  dsimp only
  repeat' split
  all_goals exact ⟨rfl, rfl, rfl, rfl⟩

lemma tailStep_fields (g : Globals) :
    (tailStep g).w4 = g.w4 ∧ (tailStep g).w5 = g.w5 ∧
    (tailStep g).sm_shft = g.sm_shft ∧ (tailStep g).sm_add = g.sm_add ∧
    (tailStep g).sm_add_y = g.sm_add_y ∧ (tailStep g).pos = g.pos :=
  ⟨rfl, rfl, rfl, rfl, rfl, rfl⟩

lemma updateGlobals_pres (g : Globals) :
    (updateGlobals g).sm_shft = (if 256 ≤ g.c0 + g.c0 + g.y then (smStep g).sm_shft else g.sm_shft) ∧
    (updateGlobals g).sm_add = (if 256 ≤ g.c0 + g.c0 + g.y then (smStep g).sm_add else g.sm_add) ∧
    (updateGlobals g).sm_add_y = (if 256 ≤ g.c0 + g.c0 + g.y then (smStep g).sm_add_y else g.sm_add_y) ∧
    (updateGlobals g).pos = (if 256 ≤ g.c0 + g.c0 + g.y then g.pos + 1 else g.pos) := by
  unfold updateGlobals
  dsimp only
  split
  · unfold byteBoundary
    obtain ⟨w1, w2, w3, w4, w5, w6, w7⟩ := wrtStep_fields (smStep g)
    obtain ⟨s1, s2, s3, s4, s5, s6, s7⟩ := shiftStep_fields (wrtStep (smStep g))
    obtain ⟨p1, p2, p3, p4⟩ := punctStep_pres (shiftStep (wrtStep (smStep g)))
    obtain ⟨t1, t2, t3, t4, t5, t6⟩ := tailStep_fields (punctStep (shiftStep (wrtStep (smStep g))))
    obtain ⟨m1, m2, m3, m4, m5, m6⟩ := smStep_fields g
    refine ⟨?_, ?_, ?_, ?_⟩
    · show (tailStep _).sm_shft = _; rw [t3, p1, s4, w4]
    · show (tailStep _).sm_add = _; rw [t4, p2, s5, w5]
    · show (tailStep _).sm_add_y = _; rw [t5, p3, s6, w6]
    · show (tailStep _).pos = _; rw [t6, p4, s7, w7, m5]
  · exact ⟨rfl, rfl, rfl, rfl⟩

lemma smStep_sm_values (g : Globals) :
    ((smStep g).sm_shft, (smStep g).sm_add, (smStep g).sm_add_y) =
      if g.pos + 1 ≤ 1048576 then
        (if g.pos + 1 = 1048576 then ((9 : Nat), (66046 : Nat), 66046 &&& neg32 g.y)
         else if g.pos + 1 = 524288 then (8, 65790, 65790 &&& neg32 g.y)
         else (g.sm_shft, g.sm_add, g.sm_add &&& neg32 g.y))
      else (g.sm_shft, g.sm_add, g.sm_add_y) := by
  unfold smStep
  dsimp only
  by_cases h1 : g.pos + 1 ≤ 1048576
  · rw [if_pos h1, if_pos h1]
    by_cases h2 : g.pos + 1 = 1048576
    · rw [if_pos h2, if_pos h2]
    · rw [if_neg h2, if_neg h2]
      by_cases h3 : g.pos + 1 = 524288
      · rw [if_pos h3, if_pos h3]
      · rw [if_neg h3, if_neg h3]
  · rw [if_neg h1, if_neg h1]

lemma and_neg32 {n : Nat} (hn : n < 4294967296) {y : Nat} (hy : y ≤ 1) :
    n &&& neg32 y = if y = 1 then n else 0 := by
  interval_cases y
  · show n &&& neg32 0 = 0
    have : neg32 0 = 0 := by norm_num [neg32]
    rw [this, Nat.and_zero]
  · show n &&& neg32 1 = n
    have h1 : neg32 1 = 2 ^ 32 - 1 := by norm_num [neg32]
    rw [h1, Nat.and_pow_two_sub_one_eq_mod]
    exact Nat.mod_eq_of_lt hn

/-! ## Claim C1 -/

/-- Claim C1 as stated: on a byte boundary both shift registers advance by
the same code, with the code being WRT_mpw[byte>>4] replaced by 2 whenever
the prior byte b1 is 12.  Stated for non-punctuation bytes, where the
shift-register update is not post-processed by the sentence heuristic. -/
def claimC1 : Prop :=
  ∀ g : Globals, 256 ≤ g.c0 + g.c0 + g.y →
    ¬PunctByte (g.c0 + g.c0 + g.y - 256) →
    (updateGlobals g).w4 =
      u32 (g.w4 * 4 + (if g.b1 = 12 then 2 else WRT_mpw ((g.c0 + g.c0 + g.y - 256) >>> 4))) ∧
    (updateGlobals g).w5 =
      u32 (g.w5 * 4 + (if g.b1 = 12 then 2 else WRT_mpw ((g.c0 + g.c0 + g.y - 256) >>> 4)))

/-- A concrete state about to complete byte 0 with prior byte 12:
the claimed common code would be 2, but w4 actually advances by
WRT_mpw[0] = 3. -/
def gC1 : Globals :=
  { pos := 10, c0 := 128, bpos := 7, y := 0, b1 := 12, b2 := 0, b3 := 0, b4 := 0,
    b5 := 0, b6 := 0, b7 := 0, b8 := 0, c4 := 0, x5 := 0, w4 := 0, w5 := 0,
    f4 := 0, tt := 0, sm_shft := 7, sm_add := 65662, sm_add_y := 0,
    buf := fun _ => 0, bufmask := 255 }

/-- C1 fails on the code: with prior byte b1 = 12 and completed byte 0,
w4 advances by 3 = WRT_mpw[0], not by the claimed common code 2 (which
only w5 receives). -/
theorem C1_counterexample : ¬claimC1 := by
  intro h
  have h2 := (h gC1 (by decide) (by decide)).1
  have h3 : (updateGlobals gC1).w4 = 3 := by decide
  rw [h3] at h2
  exact absurd h2 (by decide)

/-- C1 amended: on every byte boundary of perceive with a non-punctuation
completed byte, w4 advances by WRT_mpw[byte>>4] unconditionally, while w5
advances by the same value except that the added code is 2 when the prior
byte b1 equals 12; only w5 honours the b1 = 12 exception. -/
theorem C1_w4_w5_update (g : Globals) (hb : 256 ≤ g.c0 + g.c0 + g.y)
    (hnp : ¬PunctByte (g.c0 + g.c0 + g.y - 256)) :
    (updateGlobals g).w4 = u32 (g.w4 * 4 + WRT_mpw ((g.c0 + g.c0 + g.y - 256) >>> 4)) ∧
    (updateGlobals g).w5 = u32 (g.w5 * 4 +
      (if g.b1 = 12 then 2 else WRT_mpw ((g.c0 + g.c0 + g.y - 256) >>> 4))) := by
  obtain ⟨m1, m2, m3, m4, m5, m6⟩ := smStep_fields g
  obtain ⟨w1, w2, w3, _, _, _, _⟩ := wrtStep_fields (smStep g)
  obtain ⟨s1, s2, s3, _, _, _, _⟩ := shiftStep_fields (wrtStep (smStep g))
  have hc : (shiftStep (wrtStep (smStep g))).c0 = g.c0 + g.c0 + g.y - 256 := by
    rw [s3, w3, m1]
  have hid : punctStep (shiftStep (wrtStep (smStep g))) = shiftStep (wrtStep (smStep g)) :=
    punctStep_id (by rw [hc]; exact hnp)
  obtain ⟨t1, t2, _, _, _, _⟩ := tailStep_fields (punctStep (shiftStep (wrtStep (smStep g))))
  have hu : (updateGlobals g).w4 = (byteBoundary g).w4 ∧
      (updateGlobals g).w5 = (byteBoundary g).w5 := by
    unfold updateGlobals
    dsimp only
    rw [if_pos hb]
    exact ⟨rfl, rfl⟩
  constructor
  · rw [hu.1]
    show (tailStep (punctStep (shiftStep (wrtStep (smStep g))))).w4 = _
    rw [t1, hid, s1, w1, m2, m1]
  · rw [hu.2]
    show (tailStep (punctStep (shiftStep (wrtStep (smStep g))))).w5 = _
    rw [t2, hid, s2, w2, m4, m3, m1]

/-- A concrete witness state for C1: byte 1 completes with b1 = 12,
w4 = 7, w5 = 9. -/
def gW1 : Globals :=
  { gC1 with y := 1, w4 := 7, w5 := 9 }

theorem C1_witness :
    (256 ≤ gW1.c0 + gW1.c0 + gW1.y ∧ ¬PunctByte (gW1.c0 + gW1.c0 + gW1.y - 256)) ∧
    (updateGlobals gW1).w4 = u32 (gW1.w4 * 4 + WRT_mpw ((gW1.c0 + gW1.c0 + gW1.y - 256) >>> 4)) ∧
    (updateGlobals gW1).w5 = u32 (gW1.w5 * 4 +
      (if gW1.b1 = 12 then 2 else WRT_mpw ((gW1.c0 + gW1.c0 + gW1.y - 256) >>> 4))) :=
  ⟨⟨by decide, by decide⟩, C1_w4_w5_update gW1 (by decide) (by decide)⟩

/-! ## Claim C8 -/

/-- C8: perceive leaves (sm_shft, sm_add) unchanged off byte boundaries;
on the byte at which pos reaches 512K it sets them to (8, 65790), at 1M to
(9, 66046), and it leaves them unchanged on every other byte; at those
flip bytes sm_add_y equals sm_add & -y, that is sm_add for bit 1 and 0
for bit 0. -/
theorem C8_sm_knobs :
    (∀ g : Globals, g.c0 + g.c0 + g.y < 256 →
      (updateGlobals g).sm_shft = g.sm_shft ∧ (updateGlobals g).sm_add = g.sm_add) ∧
    (∀ g : Globals, 256 ≤ g.c0 + g.c0 + g.y →
      (updateGlobals g).pos = g.pos + 1 ∧
      (g.pos + 1 = 524288 →
        (updateGlobals g).sm_shft = 8 ∧ (updateGlobals g).sm_add = 65790) ∧
      (g.pos + 1 = 1048576 →
        (updateGlobals g).sm_shft = 9 ∧ (updateGlobals g).sm_add = 66046) ∧
      (g.pos + 1 ≠ 524288 → g.pos + 1 ≠ 1048576 →
        (updateGlobals g).sm_shft = g.sm_shft ∧ (updateGlobals g).sm_add = g.sm_add) ∧
      (g.y ≤ 1 → (g.pos + 1 = 524288 ∨ g.pos + 1 = 1048576) →
        (updateGlobals g).sm_add_y = if g.y = 1 then (updateGlobals g).sm_add else 0)) := by
  constructor
  · intro g hlt
    obtain ⟨hs, ha, _, _⟩ := updateGlobals_pres g
    rw [if_neg (by omega)] at hs ha
    exact ⟨hs, ha⟩
  · intro g hb
    obtain ⟨hs, ha, hy, hp⟩ := updateGlobals_pres g
    rw [if_pos hb] at hs ha hy hp
    refine ⟨hp, ?_, ?_, ?_, ?_⟩
    · intro h5
      have hv := smStep_sm_values g
      rw [if_pos (by omega : g.pos + 1 ≤ 1048576), if_neg (by omega : ¬g.pos + 1 = 1048576),
        if_pos h5] at hv
      simp only [Prod.mk.injEq] at hv
      exact ⟨by rw [hs, hv.1], by rw [ha, hv.2.1]⟩
    · intro h1m
      have hv := smStep_sm_values g
      rw [if_pos (by omega : g.pos + 1 ≤ 1048576), if_pos h1m] at hv
      simp only [Prod.mk.injEq] at hv
      exact ⟨by rw [hs, hv.1], by rw [ha, hv.2.1]⟩
    · intro hn5 hn1
      have hv := smStep_sm_values g
      by_cases h0 : g.pos + 1 ≤ 1048576
      · rw [if_pos h0, if_neg hn1, if_neg hn5] at hv
        simp only [Prod.mk.injEq] at hv
        exact ⟨by rw [hs, hv.1], by rw [ha, hv.2.1]⟩
      · rw [if_neg h0] at hv
        simp only [Prod.mk.injEq] at hv
        exact ⟨by rw [hs, hv.1], by rw [ha, hv.2.1]⟩
    · intro hy1 hflip
      have hv := smStep_sm_values g
      rcases hflip with h5 | h1m
      · rw [if_pos (by omega : g.pos + 1 ≤ 1048576), if_neg (by omega : ¬g.pos + 1 = 1048576),
          if_pos h5] at hv
        simp only [Prod.mk.injEq] at hv
        rw [hy, hv.2.2, ha, hv.2.1]
        exact and_neg32 (by norm_num) hy1
      · rw [if_pos (by omega : g.pos + 1 ≤ 1048576), if_pos h1m] at hv
        simp only [Prod.mk.injEq] at hv
        rw [hy, hv.2.2, ha, hv.2.1]
        exact and_neg32 (by norm_num) hy1

/-- Witness states for C8: one off-boundary step, and one boundary step
crossing the 512K mark with bit 1. -/
def gW8a : Globals := { gC1 with c0 := 3, b1 := 0 }

def gW8b : Globals := { gC1 with pos := 524287, y := 1, b1 := 0 }

theorem C8_witness :
    (gW8a.c0 + gW8a.c0 + gW8a.y < 256 ∧
      (updateGlobals gW8a).sm_shft = gW8a.sm_shft ∧
      (updateGlobals gW8a).sm_add = gW8a.sm_add) ∧
    (256 ≤ gW8b.c0 + gW8b.c0 + gW8b.y ∧ gW8b.pos + 1 = 524288 ∧ gW8b.y ≤ 1 ∧
      (updateGlobals gW8b).pos = gW8b.pos + 1 ∧
      (updateGlobals gW8b).sm_shft = 8 ∧ (updateGlobals gW8b).sm_add = 65790 ∧
      (updateGlobals gW8b).sm_add_y = if gW8b.y = 1 then (updateGlobals gW8b).sm_add else 0) := by
  have h1 := C8_sm_knobs.1 gW8a (by decide)
  have h2 := C8_sm_knobs.2 gW8b (by decide)
  refine ⟨⟨by decide, h1.1, h1.2⟩, by decide, by decide, by decide, h2.1,
    (h2.2.1 (by decide)).1, (h2.2.1 (by decide)).2, h2.2.2.2.2 (by decide) (Or.inl (by decide))⟩

/-! ## Claim C3 -/

lemma perceive_sm_add_y (g : Globals) (bit : Nat) (hbit : bit ≤ 1)
    (hsa : g.sm_add < 4294967296) :
    (paq8PerceiveG g bit).sm_add_y =
      if bit = 1 then (paq8PerceiveG g bit).sm_add else 0 := by
  unfold paq8PerceiveG
  obtain ⟨hs, ha, hy, hp⟩ :=
    updateGlobals_pres { g with y := bit, sm_add_y := if bit ≠ 0 then g.sm_add else 0 }
  by_cases hb : 256 ≤ g.c0 + g.c0 + bit
  · rw [if_pos hb] at ha hy
    rw [hy, ha]
    have hv := smStep_sm_values { g with y := bit, sm_add_y := if bit ≠ 0 then g.sm_add else 0 }
    by_cases h0 : g.pos + 1 ≤ 1048576
    · rw [if_pos h0] at hv
      by_cases h1 : g.pos + 1 = 1048576
      · rw [if_pos h1] at hv
        simp only [Prod.mk.injEq] at hv
        rw [hv.2.2, hv.2.1]
        exact and_neg32 (by norm_num) hbit
      · rw [if_neg h1] at hv
        by_cases h2 : g.pos + 1 = 524288
        · rw [if_pos h2] at hv
          simp only [Prod.mk.injEq] at hv
          rw [hv.2.2, hv.2.1]
          exact and_neg32 (by norm_num) hbit
        · rw [if_neg h2] at hv
          simp only [Prod.mk.injEq] at hv
          rw [hv.2.2, hv.2.1]
          exact and_neg32 hsa hbit
    · rw [if_neg h0] at hv
      simp only [Prod.mk.injEq] at hv
      rw [hv.2.2, hv.2.1]
      show (if bit ≠ 0 then g.sm_add else 0) = if bit = 1 then g.sm_add else 0
      interval_cases bit <;> simp
  · rw [if_neg hb] at ha hy
    rw [hy, ha]
    show (if bit ≠ 0 then g.sm_add else 0) = if bit = 1 then g.sm_add else 0
    interval_cases bit <;> simp

/-- C3: every StateMap::p(cx) call first rewrites the entry of the
previously queried context cxt by `t[prev] += (sm_add_y - t[prev]) >>
sm_shft` (U16 wrap), touches no other entry, records cx as the new
context, and returns the entry for cx of the updated table shifted right
by 4, a 12-bit value; and after PAQ8Perceive(bit) the global sm_add_y is
sm_add when bit = 1 and 0 when bit = 0. -/
theorem C3_statemap_p :
    (∀ (g : Globals) (s : SMState) (cx : Nat), (∀ k, s.t k < 65536) →
      (smP g s cx).1.t s.cxt =
        (((s.t s.cxt : Int) + asr ((g.sm_add_y : Int) - (s.t s.cxt : Int)) g.sm_shft)
          % 65536).toNat ∧
      (∀ k, k ≠ s.cxt → (smP g s cx).1.t k = s.t k) ∧
      (smP g s cx).1.cxt = cx ∧
      (smP g s cx).2 = (smP g s cx).1.t cx >>> 4 ∧
      (smP g s cx).2 < 4096) ∧
    (∀ (g : Globals) (bit : Nat), bit ≤ 1 → g.sm_add < 4294967296 →
      (paq8PerceiveG g bit).sm_add_y =
        if bit = 1 then (paq8PerceiveG g bit).sm_add else 0) := by
  constructor
  · intro g s cx ht
    have hwrap : ∀ k, (smP g s cx).1.t k < 65536 := by
      intro k
      show (if k = s.cxt then _ else s.t k) < 65536
      split
      · have h1 := Int.emod_nonneg ((s.t s.cxt : Int) +
          asr ((g.sm_add_y : Int) - (s.t s.cxt : Int)) g.sm_shft)
          (show (65536 : Int) ≠ 0 by norm_num)
        have h2 := Int.emod_lt_of_pos ((s.t s.cxt : Int) +
          asr ((g.sm_add_y : Int) - (s.t s.cxt : Int)) g.sm_shft)
          (show (0 : Int) < 65536 by norm_num)
        omega
      · exact ht k
    refine ⟨?_, ?_, rfl, rfl, ?_⟩
    · show (if s.cxt = s.cxt then _ else _) = _
      rw [if_pos rfl]
    · intro k hk
      show (if k = s.cxt then _ else s.t k) = s.t k
      rw [if_neg hk]
    · have := hwrap cx
      have hs : (smP g s cx).2 = (smP g s cx).1.t cx >>> 4 := rfl
      rw [hs, Nat.shiftRight_eq_div_pow]
      omega
  · exact perceive_sm_add_y

/-- Witness StateMap state for C3. -/
def sW3 : SMState := { cxt := 5, t := fun _ => 33000 }

theorem C3_witness :
    ((∀ k, sW3.t k < 65536) ∧
      (smP gC1 sW3 7).1.t sW3.cxt =
        (((sW3.t sW3.cxt : Int) +
          asr ((gC1.sm_add_y : Int) - (sW3.t sW3.cxt : Int)) gC1.sm_shft) % 65536).toNat ∧
      (smP gC1 sW3 7).1.cxt = 7 ∧
      (smP gC1 sW3 7).2 = (smP gC1 sW3 7).1.t 7 >>> 4 ∧
      (smP gC1 sW3 7).2 < 4096) ∧
    (gW8b.y ≤ 1 ∧
      (paq8PerceiveG gW8b 1).sm_add_y =
        if (1 : Nat) = 1 then (paq8PerceiveG gW8b 1).sm_add else 0) := by
  have h1 := C3_statemap_p.1 gC1 sW3 7 (fun _ => by show (33000 : Nat) < 65536; decide)
  have h2 := C3_statemap_p.2 gW8b 1 (by decide) (by decide)
  exact ⟨⟨fun _ => by show (33000 : Nat) < 65536; decide, h1.1, h1.2.2.1, h1.2.2.2.1,
    h1.2.2.2.2⟩, by decide, h2⟩

/-! ## Claim C5 -/

/-- Claim C5 as stated: mul(x) rereads the most recently added input slot,
tx[nx-1], and rewrites it as the previous value times x divided by 4. -/
def claimC5 : Prop :=
  ∀ (m : MixerCore) (x : Int), 1 ≤ m.nx →
    (mcMul m x).tx (m.nx - 1) = toShort (Int.tdiv (m.tx (m.nx - 1) * x) 4)

/-- A mixer state with one counted input 12 at slot 0 and a leftover value
20 at slot 1. -/
def mC5 : MixerCore :=
  { mcInit 8 1 1 0 with
      nx := 1,
      tx := fun k => if k = 0 then 12 else if k = 1 then 20 else 0 }

/-- C5 fails on the code: mul reads and writes the slot at index nx (one
past the last counted input), not the most recently added slot nx - 1;
at mC5 with x = 8 the slot 0 stays 12 instead of becoming 24. -/
theorem C5_counterexample : ¬claimC5 := by
  intro h
  have h2 := h mC5 8 (by decide)
  have h3 : (mcMul mC5 8).tx 0 = 12 := by decide
  rw [show mC5.nx - 1 = 0 from rfl] at h2
  rw [h3] at h2
  exact absurd h2 (by decide)

/-- C5 amended: mul(x) reads the slot at the current input count nx (one
past the most recently added input, holding a value left over from an
earlier add), rewrites exactly that slot with the previous value times x
divided by 4 (truncating, stored as a short), and increments nx; every
other slot and the rest of the mixer state are untouched.  The driver in
contextModel2 rewinds nx before calling mul, so these calls rescale a
tail of previously added inputs in place. -/
theorem C5_mul (m : MixerCore) (x : Int) :
    (mcMul m x).tx m.nx = toShort (Int.tdiv (m.tx m.nx * x) 4) ∧
    (∀ k, k ≠ m.nx → (mcMul m x).tx k = m.tx k) ∧
    (mcMul m x).nx = m.nx + 1 ∧
    (mcMul m x).wx = m.wx ∧ (mcMul m x).pr = m.pr ∧
    (mcMul m x).ncxt = m.ncxt ∧ (mcMul m x).base = m.base := by
  refine ⟨?_, ?_, rfl, rfl, rfl, rfl, rfl⟩
  · show (if m.nx = m.nx then _ else _) = _
    rw [if_pos rfl]
  · intro k hk
    show (if k = m.nx then _ else m.tx k) = m.tx k
    rw [if_neg hk]

theorem C5_witness :
    (mcMul mC5 8).tx mC5.nx = toShort (Int.tdiv (mC5.tx mC5.nx * 8) 4) ∧
    (2 ≠ mC5.nx → (mcMul mC5 8).tx 2 = mC5.tx 2) ∧
    (mcMul mC5 8).nx = mC5.nx + 1 ∧
    (mcMul mC5 8).tx mC5.nx = 40 := by
  have h := C5_mul mC5 8
  exact ⟨h.1, fun hk => h.2.1 2 hk, h.2.2.1, by decide⟩

/-! ## Claim C2 -/

/-- Well-formedness of a ByteMixer state as established by the
constructor: byte_map is the byte-to-vocabulary-index permutation, the
vocabulary size counts the vocabulary bytes, and the aggregation offset is
in range. -/
def BmWF (bm : ByteMixerSt Int) : Prop :=
  (∀ i, bm.byte_map i = bmOff bm.vocab i) ∧ bm.vocab_size = bmOff bm.vocab 256 ∧
    bm.offset < bm.vocab_size

/-- Claim C2 as stated: SetInput(byte, value) on a vocabulary byte adds
value to the accumulator slot byte_map[byte] and leaves every other slot
unchanged; on a byte outside the vocabulary it changes no slot. -/
def claimC2 : Prop :=
  ∀ (bm : ByteMixerSt Int) (idx : Nat) (val : Int), BmWF bm → idx < 256 →
    (bm.vocab idx = true →
      (bm.SetInput idx val).inputs (bm.byte_map idx) = bm.inputs (bm.byte_map idx) + val ∧
      ∀ k, k ≠ bm.byte_map idx → (bm.SetInput idx val).inputs k = bm.inputs k) ∧
    (bm.vocab idx = false → ∀ k, (bm.SetInput idx val).inputs k = bm.inputs k)

/-- A freshly reset ByteMixer whose vocabulary is the bytes 0 and 1. -/
def bmC2 : ByteMixerSt Int :=
  { vocab := fun n => n == 0 || n == 1, byte_map := bmOff (fun n => n == 0 || n == 1),
    inputs := fun _ => 0, vocab_size := 2, offset := 0 }

set_option maxRecDepth 4000 in
/-- C2 fails on the code: SetInput ignores byte_map and accumulates into
the slot at the running offset counter.  At bmC2 (offset 0), SetInput(1, 1)
adds into slot 0, while the slot byte_map[1] = 1 keeps its old value. -/
theorem C2_counterexample : ¬claimC2 := by
  intro h
  have h2 := ((h bmC2 1 1 ⟨fun i => rfl, by decide, by decide⟩ (by decide)).1 rfl).1
  have h3 : (bmC2.SetInput 1 1).inputs (bmC2.byte_map 1) = 0 := by decide
  rw [h3] at h2
  exact absurd h2 (by decide)

/-- C2 amended: SetInput(byte, value) on a vocabulary byte adds value to
the accumulator slot at the current aggregation offset - not the slot of
the byte-to-vocabulary permutation - leaves every other slot unchanged,
and advances the offset by one, wrapping to 0 at vocab_size; the offset
coincides with byte_map[byte] only when the in-vocabulary bytes arrive in
increasing order from a reset offset.  On a byte outside the vocabulary
the state is unchanged. -/
theorem C2_set_input {α : Type} [Add α] (bm : ByteMixerSt α) (idx : Nat) (val : α) :
    (bm.vocab idx = true →
      (bm.SetInput idx val).inputs bm.offset = bm.inputs bm.offset + val ∧
      (∀ k, k ≠ bm.offset → (bm.SetInput idx val).inputs k = bm.inputs k) ∧
      (bm.SetInput idx val).offset =
        (if bm.offset + 1 = bm.vocab_size then 0 else bm.offset + 1)) ∧
    (bm.vocab idx = false → bm.SetInput idx val = bm) := by
  constructor
  · intro hv
    unfold ByteMixerSt.SetInput
    rw [if_neg (by rw [hv]; exact fun hc => Bool.noConfusion hc)]
    refine ⟨?_, ?_, rfl⟩
    · show (if bm.offset = bm.offset then _ else _) = _
      rw [if_pos rfl]
    · intro k hk
      show (if k = bm.offset then _ else _) = _
      rw [if_neg hk]
  · intro hv
    unfold ByteMixerSt.SetInput
    rw [if_pos hv]

theorem C2_witness :
    (bmC2.vocab 1 = true ∧
      (bmC2.SetInput 1 (5 : Int)).inputs bmC2.offset = bmC2.inputs bmC2.offset + 5 ∧
      (bmC2.SetInput 1 (5 : Int)).offset =
        (if bmC2.offset + 1 = bmC2.vocab_size then 0 else bmC2.offset + 1)) ∧
    (bmC2.vocab 7 = false ∧ bmC2.SetInput 7 (5 : Int) = bmC2) := by
  have h1 := (C2_set_input bmC2 1 (5 : Int)).1 rfl
  have h2 := (C2_set_input bmC2 7 (5 : Int)).2 rfl
  exact ⟨⟨rfl, h1.1, h1.2.2⟩, rfl, h2⟩

/-! ## Claim C6 -/

/-- Claim C6 as stated: when the stored run byte is consistent with the
bits produced so far, the added value is sign * ilog(count+1) * scale with
scale 13 for pure runs, and 15/4 times that scale when the mixed bit (the
low bit of the count) is set. -/
def claimC6 : Prop :=
  ∀ (rc rp1 cc bp : Nat), rc < 256 → rp1 < 256 → bp < 8 → cc < 256 →
    (rp1 + 256) >>> (8 - bp) = cc →
    runPredValue rc rp1 cc bp =
      ((((rp1 >>> (7 - bp)) &&& 1 : Nat) : Int) * 2 - 1) *
        (if rc &&& 1 ≠ 0 then ((ilog (rc + 1) : Int) * 13) * 15 / 4
         else (ilog (rc + 1) : Int) * 13)

/-- C6 fails on the code: for a mixed run record (rc = 3) the code emits
sign * (ilog(4)*15)/4 = 120, not sign * ilog(4)*13*15/4 = 1560; the 15/4
factor replaces the 13 instead of multiplying it. -/
theorem C6_counterexample : ¬claimC6 := by
  intro h
  have h2 := h 3 255 1 0 (by decide) (by decide) (by decide) (by decide) (by decide)
  exact absurd h2 (by decide)

/-- The run prediction in the words of the amended claim: consistency
compares the stored byte high bits extended by a sentinel with the partial
byte, the sign is the next stored bit, and the magnitude is
ilog(count+1)*13 for pure runs and (ilog(count+1)*15)/4 for mixed runs. -/
def runPredSpec (rc rp1 cc bp : Nat) : Int :=
  if rp1 / 2 ^ (8 - bp) + 2 ^ bp = cc then
    (if (rp1 / 2 ^ (7 - bp)) % 2 = 1 then 1 else -1) *
      (if rc % 2 = 1 then ((ilog (rc + 1) : Int) * 15) / 4 else (ilog (rc + 1) : Int) * 13)
  else 0

/-- C6 amended: the run prediction added to the mixer is
sign * ilog(count+1) * 13 for pure runs and sign * (ilog(count+1) * 15)/4
when the mixed bit is set (so roughly 15/4 in place of 13, not on top of
it), and 0 when the stored byte is inconsistent with the produced bits. -/
theorem C6_run_prediction (rc rp1 cc bp : Nat) (hbp : bp ≤ 7) :
    runPredValue rc rp1 cc bp = runPredSpec rc rp1 cc bp := by
  have h256 : (rp1 + 256) >>> (8 - bp) = rp1 / 2 ^ (8 - bp) + 2 ^ bp := by
    rw [Nat.shiftRight_eq_div_pow]
    have h8 : (256 : Nat) = 2 ^ bp * 2 ^ (8 - bp) := by
      rw [← pow_add, show bp + (8 - bp) = 8 from by omega]
      decide
    rw [h8, Nat.add_mul_div_right _ _ (by positivity)]
  have hsgn : (((rp1 >>> (7 - bp)) &&& 1 : Nat) : Int) * 2 - 1 =
      (if (rp1 / 2 ^ (7 - bp)) % 2 = 1 then (1 : Int) else -1) := by
    rw [Nat.and_one_is_mod, Nat.shiftRight_eq_div_pow]
    rcases Nat.mod_two_eq_zero_or_one (rp1 / 2 ^ (7 - bp)) with h | h <;> rw [h] <;> simp
  have h0 : rc &&& 1 = rc % 2 := Nat.and_one_is_mod rc
  unfold runPredValue runPredSpec
  dsimp only
  rw [h256]
  by_cases hcc : rp1 / 2 ^ (8 - bp) + 2 ^ bp = cc
  · rw [if_pos hcc, if_pos hcc, hsgn]
    rcases Nat.mod_two_eq_zero_or_one rc with hrc | hrc
    · rw [if_neg (show ¬(rc &&& 1 ≠ 0) from by rw [h0, hrc]; simp),
        if_neg (show ¬(rc % 2 = 1) from by rw [hrc]; simp)]
    · rw [if_pos (show rc &&& 1 ≠ 0 from by rw [h0, hrc]; simp), if_pos hrc]
  · rw [if_neg hcc, if_neg hcc]

theorem C6_witness :
    runPredValue 4 255 1 0 = runPredSpec 4 255 1 0 ∧
    runPredValue 4 255 1 0 = 481 ∧ runPredValue 3 255 1 0 = 120 :=
  ⟨C6_run_prediction 4 255 1 0 (by decide), by decide, by decide⟩

/-! ## Claim C10 -/

/-- C10: in every reachable mixer state the Mixer::update training error
((y<<12) - pr[i]) * 7 fits a signed 16-bit value, because the stored
per-slot predictions are the initial 2048 or squash outputs in [0, 4095];
the compiled-out assertion on err can never fire. -/
theorem C10_mixer_err {st : MixerSt} (h : MReach st) (y : Nat) (hy : y ≤ 1) (i : Nat) :
    -32768 ≤ errOf st.top y i ∧ errOf st.top y i < 32768 := by
  obtain ⟨h0, h1⟩ := mreach_pr_bounds h i
  unfold errOf
  omega

theorem C10_witness :
    ((0 : Nat) ≤ 1) ∧
    (-32768 ≤ errOf (mixP (mixInit 456 11008 6 512) 0).1.top 0 3 ∧
      errOf (mixP (mixInit 456 11008 6 512) 0).1.top 0 3 < 32768) ∧
    errOf (mixInit 8 2 2 0).top 1 0 = 14336 :=
  ⟨by decide,
    C10_mixer_err (MReach.p (mixInit 456 11008 6 512) 0 (MReach.init 456 11008 6 512))
      0 (by decide) 3,
    by decide⟩

/-! ## Claim C9 -/

/-- C9: Predictor::p is a const accessor of the stored prediction, so on
every reachable predictor state predict() returns a value in [0, 4095],
and calling it twice in the same bit cycle returns the same value and
leaves the whole predictor state unchanged. -/
theorem C9_predict {s : PState} (h : PReach s) :
    (predictP s).1 = s ∧ (predictP s).2 = s.pr ∧
    0 ≤ (predictP s).2 ∧ (predictP s).2 ≤ 4095 ∧
    predictP (predictP s).1 = predictP s := by
  obtain ⟨h0, h1, _⟩ := preach_inv h
  exact ⟨rfl, rfl, h0, h1, rfl⟩

theorem C9_witness :
    (predictP (pstate0 255)).1 = pstate0 255 ∧ (predictP (pstate0 255)).2 = 2048 ∧
    0 ≤ (predictP (pstate0 255)).2 ∧ (predictP (pstate0 255)).2 ≤ 4095 ∧
    predictP (predictP (pstate0 255)).1 = predictP (pstate0 255) := by
  have h := C9_predict (PReach.init 255)
  exact ⟨h.1, rfl, h.2.2.1, h.2.2.2.1, h.2.2.2.2⟩

/-! ## Claim C7 -/

/-- C7: for every d in [-2047, 2047] the round trip stretch(squash(d))
lands within one plateau step of d - it is the left edge of the squash
plateau containing d, so it is at most d and has the same squash value -
and for every p in [0, 4095] the round trip squash(stretch(p)) equals p
exactly when p is a plateau center of the squash table, that is, a value
the squash table attains on [-2047, 2047] (one representative per
stretch plateau). -/
theorem C7_squash_stretch :
    (∀ d : Int, -2047 ≤ d → d ≤ 2047 →
      stretch (squash d) ≤ d ∧ squash (stretch (squash d)) = squash d) ∧
    (∀ p : Int, 0 ≤ p → p ≤ 4095 →
      (squash (stretch p) = p ↔ ∃ d, -2047 ≤ d ∧ d ≤ 2047 ∧ squash d = p)) :=
  ⟨fun _ h1 h2 => ⟨stretch_squash_le h1 h2, squash_stretch_squash h1 h2⟩,
    fun _ h0 h1 => squash_stretch_eq_iff h0 h1⟩

theorem C7_witness :
    ((-2047 : Int) ≤ 2047 ∧ (2047 : Int) ≤ 2047 ∧
      stretch (squash 2047) ≤ 2047 ∧ squash (stretch (squash 2047)) = squash 2047) ∧
    ((0 : Int) ≤ 4094 ∧ (4094 : Int) ≤ 4095 ∧
      (squash (stretch 4094) = 4094 ↔ ∃ d, -2047 ≤ d ∧ d ≤ 2047 ∧ squash d = 4094)) := by
  have h1 := C7_squash_stretch.1 2047 (by norm_num) (by norm_num)
  have h2 := C7_squash_stretch.2 4094 (by norm_num) (by norm_num)
  exact ⟨⟨by norm_num, by norm_num, h1.1, h1.2⟩, by norm_num, by norm_num, h2⟩

/-! ## Claim C4 -/

/-- The all-zero bucket of a freshly allocated (calloc) table. -/
def freshEB : EB := ⟨fun _ => 0, 0, fun _ _ => 0⟩

/-- Slot k is outside the two-entry LRU queue of the bucket. -/
def Elig (st : EB) (k : Nat) : Prop := st.last % 16 ≠ k ∧ st.last / 16 ≠ k

instance (st : EB) (k : Nat) : Decidable (Elig st k) := by
  unfold Elig; infer_instance

/-- At most two of the seven slots sit in the LRU queue, so some slot is
always eligible for replacement. -/
lemma elig_exists (st : EB) : ∃ k, k < 7 ∧ Elig st k := by
  by_cases h1 : st.last % 16 ≠ 0 ∧ st.last / 16 ≠ 0
  · exact ⟨0, by omega, h1⟩
  · by_cases h2 : st.last % 16 ≠ 1 ∧ st.last / 16 ≠ 1
    · exact ⟨1, by omega, h2⟩
    · push_neg at h1 h2
      refine ⟨2, by omega, ?_, ?_⟩ <;> omega

/-- If a unique slot s carries the checksum, the search loop returns s. -/
lemma egetLoop_find (st : EB) (ch2 s : Nat) (hchk : st.chk s = ch2) :
    ∀ f, ∀ i b bi, i + f = 7 → i ≤ s → s < 7 →
      (∀ k, i ≤ k → k < s → st.chk k ≠ ch2) →
      (egetLoop st ch2 f i b bi).2 = s := by
  intro f
  induction f with
  | zero => intro i b bi h1 h2 h3 _; omega
  | succ f ih =>
      intro i b bi h1 h2 h3 h4
      by_cases he : i = s
      · subst he
        simp only [egetLoop]
        rw [if_pos hchk]
      · simp only [egetLoop]
        rw [if_neg (h4 i (le_refl i) (by omega))]
        split
        · exact ih (i + 1) _ _ (by omega) (by omega) h3 (fun k hk1 hk2 => h4 k (by omega) hk2)
        · exact ih (i + 1) b bi (by omega) (by omega) h3 (fun k hk1 hk2 => h4 k (by omega) hk2)

/-- When no checksum matches, the loop replaces an eligible slot of
minimal priority: the accumulator (b, bi) carries the running minimum. -/
lemma egetLoop_miss (st : EB) (ch2 : Nat)
    (hpri : ∀ k, k < 7 → st.bh k 0 < 65535)
    (hmiss : ∀ k, k < 7 → st.chk k ≠ ch2) :
    ∀ f, ∀ i b bi, i + f = 7 →
      ((b = 65535 ∧ bi = 0 ∧ ∀ k, k < i → ¬Elig st k) ∨
       (Elig st bi ∧ bi < i ∧ b = st.bh bi 0 ∧
         ∀ k, k < i → Elig st k → b ≤ st.bh k 0)) →
      ∃ s, egetLoop st ch2 f i b bi = (ebReplace st ch2 s, s) ∧ Elig st s ∧ s < 7 ∧
        (∀ k, k < 7 → Elig st k → st.bh s 0 ≤ st.bh k 0) := by
  intro f
  induction f with
  | zero =>
      intro i b bi h1 hacc
      rcases hacc with ⟨_, _, hno⟩ | ⟨he, hlt, hbeq, hmin⟩
      · obtain ⟨k, hk7, hk⟩ := elig_exists st
        exact absurd hk (hno k (by omega))
      · subst hbeq
        exact ⟨bi, rfl, he, by omega, fun k hk7 hke => hmin k (by omega) hke⟩
  | succ f ih =>
      intro i b bi h1 hacc
      simp only [egetLoop]
      rw [if_neg (hmiss i (by omega))]
      split
      · rename_i hcond
        refine ih (i + 1) (st.bh i 0) i (by omega) (Or.inr ⟨⟨hcond.1, hcond.2.1⟩, by omega, rfl, ?_⟩)
        intro k hk hke
        rcases hacc with ⟨hb, _, hno⟩ | ⟨he, hlt, hbeq, hmin⟩
        · rcases Nat.lt_succ_iff_lt_or_eq.1 hk with hk' | hk'
          · exact absurd hke (hno k hk')
          · subst hk'; exact le_refl _
        · rcases Nat.lt_succ_iff_lt_or_eq.1 hk with hk' | hk'
          · have h5 := hmin k hk' hke
            have h6 := hcond.2.2
            omega
          · subst hk'; exact le_refl _
      · rename_i hcond
        refine ih (i + 1) b bi (by omega) ?_
        rcases hacc with ⟨hb, hbi, hno⟩ | ⟨he, hlt, hbeq, hmin⟩
        · refine Or.inl ⟨hb, hbi, ?_⟩
          intro k hk hke
          rcases Nat.lt_succ_iff_lt_or_eq.1 hk with hk' | hk'
          · exact hno k hk' hke
          · subst hk'
            have h5 := hpri k (by omega)
            exact hcond ⟨hke.1, hke.2, by omega⟩
        · refine Or.inr ⟨he, by omega, hbeq, ?_⟩
          intro k hk hke
          rcases Nat.lt_succ_iff_lt_or_eq.1 hk with hk' | hk'
          · exact hmin k hk' hke
          · subst hk'
            by_cases hblt : st.bh k 0 < b
            · exact absurd ⟨hke.1, hke.2, hblt⟩ hcond
            · omega

/-- Every loop exit is either a found slot (with the LRU head pushed) or
a replacement; the returned slot index stays below 7. -/
lemma egetLoop_cases (st : EB) (ch2 : Nat) :
    ∀ f, ∀ i b bi, i + f = 7 → bi < 7 →
      (∃ s, s < 7 ∧ st.chk s = ch2 ∧
        egetLoop st ch2 f i b bi = ({ st with last := (st.last * 16 + s) % 256 }, s)) ∨
      (∃ s, s < 7 ∧ egetLoop st ch2 f i b bi = (ebReplace st ch2 s, s)) := by
  intro f
  induction f with
  | zero => intro i b bi h1 h2; exact Or.inr ⟨bi, h2, rfl⟩
  | succ f ih =>
      intro i b bi h1 h2
      simp only [egetLoop]
      by_cases hc : st.chk i = ch2
      · rw [if_pos hc]
        exact Or.inl ⟨i, by omega, hc, rfl⟩
      · rw [if_neg hc]
        split
        · exact ih (i + 1) _ _ (by omega) (by omega)
        · exact ih (i + 1) b bi (by omega) h2

/-- First access to a freshly zeroed bucket: the adjusted checksum 0 hits
the zero checksum at the LRU head (slot 0); any other checksum falls
through to replacement, which skips slot 0 (it sits twice in the zeroed
LRU byte) and picks slot 1. -/
lemma fresh_get (ch j : Nat) :
    (EB.get freshEB ch j).2 = if (ch + j) % 65536 = 0 then 0 else 1 := by
  by_cases h : (ch + j) % 65536 = 0
  · rw [if_pos h]
    unfold EB.get
    dsimp only
    rw [if_pos (show freshEB.chk (freshEB.last % 16) = (ch + j) % 65536 from by rw [h]; rfl)]
    rfl
  · rw [if_neg h]
    have hne : (0 : Nat) ≠ (ch + j) % 65536 := fun hc => h hc.symm
    unfold EB.get
    dsimp only
    rw [if_neg (fun hc => h (hc.symm))]
    show (egetLoop freshEB ((ch + j) % 65536) 7 0 65535 0).2 = 1
    simp [egetLoop, freshEB, ebReplace, hne]

/-- Claim C4 as stated: first access to a freshly zeroed bucket returns
slot 0; a lookup whose checksum matches exactly one slot returns that
slot; and a full miss replaces a lowest-priority slot outside the LRU
queue. -/
def claimC4 : Prop :=
  (∀ ch j : Nat, ch < 65536 → j < 7 → (EB.get freshEB ch j).2 = 0) ∧
  (∀ (st : EB) (ch j s : Nat), st.last % 16 < 7 → s < 7 →
    st.chk s = (ch + j) % 65536 →
    (∀ i, i < 7 → i ≠ s → st.chk i ≠ (ch + j) % 65536) →
    (EB.get st ch j).2 = s) ∧
  (∀ (st : EB) (ch j : Nat), st.last % 16 < 7 →
    (∀ i, i < 7 → st.bh i 0 < 65535) →
    (∀ i, i < 7 → st.chk i ≠ (ch + j) % 65536) →
    Elig st (EB.get st ch j).2 ∧
    (∀ k, k < 7 → Elig st k → st.bh (EB.get st ch j).2 0 ≤ st.bh k 0))

/-- C4 fails on the fresh-bucket part: with adjusted checksum 1 the first
access to the zeroed bucket returns slot 1, not slot 0, because slot 0 is
named (twice) by the zeroed LRU byte and is therefore skipped by the
replacement scan. -/
theorem C4_counterexample : ¬claimC4 := by
  intro h
  have h2 := h.1 1 0 (by decide) (by decide)
  exact absurd h2 (by decide)

/-- C4 amended: the first access to a freshly zeroed bucket returns slot
0 exactly when the adjusted checksum is 0 (a trivial match at the LRU
head), and slot 1 otherwise; a lookup whose checksum matches exactly one
slot returns that slot; a full miss replaces an eligible (non-LRU) slot
of minimal priority bh[slot][0] and installs the checksum there; and an
immediately repeated lookup with the same hash and distinguisher returns
the same slot and does not change the bucket again. -/
theorem C4_bucket_get :
    (∀ ch j : Nat,
      (EB.get freshEB ch j).2 = if (ch + j) % 65536 = 0 then 0 else 1) ∧
    (∀ (st : EB) (ch j s : Nat), st.last % 16 < 7 → s < 7 →
      st.chk s = (ch + j) % 65536 →
      (∀ i, i < 7 → i ≠ s → st.chk i ≠ (ch + j) % 65536) →
      (EB.get st ch j).2 = s) ∧
    (∀ (st : EB) (ch j : Nat), st.last % 16 < 7 →
      (∀ i, i < 7 → st.bh i 0 < 65535) →
      (∀ i, i < 7 → st.chk i ≠ (ch + j) % 65536) →
      Elig st (EB.get st ch j).2 ∧ (EB.get st ch j).2 < 7 ∧
      (∀ k, k < 7 → Elig st k → st.bh (EB.get st ch j).2 0 ≤ st.bh k 0) ∧
      (EB.get st ch j).1 = ebReplace st ((ch + j) % 65536) (EB.get st ch j).2) ∧
    (∀ (st : EB) (ch j : Nat), st.last % 16 < 7 →
      EB.get (EB.get st ch j).1 ch j = EB.get st ch j) := by
  refine ⟨fresh_get, ?_, ?_, ?_⟩
  · intro st ch j s hl hs hchk huniq
    unfold EB.get
    dsimp only
    by_cases hf : st.chk (st.last % 16) = (ch + j) % 65536
    · rw [if_pos hf]
      by_contra hne
      exact huniq (st.last % 16) hl hne hf
    · rw [if_neg hf]
      exact egetLoop_find st _ s hchk 7 0 65535 0 (by omega) (by omega) hs
        (fun k _ hk2 => huniq k (by omega) (by omega))
  · intro st ch j hl hpri hmiss
    unfold EB.get
    dsimp only
    rw [if_neg (hmiss (st.last % 16) hl)]
    obtain ⟨s, heq, helig, hs7, hmin⟩ := egetLoop_miss st _ hpri hmiss 7 0 65535 0
      (by omega) (Or.inl ⟨rfl, rfl, fun k hk _ => absurd hk (Nat.not_lt_zero k)⟩)
    rw [heq]
    exact ⟨helig, hs7, hmin, rfl⟩
  · intro st ch j hl
    by_cases hf : st.chk (st.last % 16) = (ch + j) % 65536
    · have h1 : EB.get st ch j = (st, st.last % 16) := by
        unfold EB.get
        dsimp only
        rw [if_pos hf]
      rw [h1]
      exact h1
    · have h1 : EB.get st ch j = egetLoop st ((ch + j) % 65536) 7 0 65535 0 := by
        unfold EB.get
        dsimp only
        rw [if_neg hf]
      rcases egetLoop_cases st ((ch + j) % 65536) 7 0 65535 0 (by omega) (by omega) with
        ⟨s, hs7, hchk, heq⟩ | ⟨s, hs7, heq⟩
      · have h2 : EB.get st ch j = ({ st with last := (st.last * 16 + s) % 256 }, s) := by
          rw [h1, heq]
        have hmod : ((st.last * 16 + s) % 256) % 16 = s := by omega
        have hcond : ({ st with last := (st.last * 16 + s) % 256 } : EB).chk
            (({ st with last := (st.last * 16 + s) % 256 } : EB).last % 16) =
            (ch + j) % 65536 := by
          show st.chk (((st.last * 16 + s) % 256) % 16) = _
          rw [hmod]
          exact hchk
        rw [h2]
        unfold EB.get
        dsimp only
        rw [if_pos hcond]
        show (_, ((st.last * 16 + s) % 256) % 16) = _
        rw [hmod]
      · have h2 : EB.get st ch j = (ebReplace st ((ch + j) % 65536) s, s) := by
          rw [h1, heq]
        have hmod : (240 ||| s) % 16 = s := by
          interval_cases s <;> decide
        have hcond : (ebReplace st ((ch + j) % 65536) s).chk
            ((ebReplace st ((ch + j) % 65536) s).last % 16) = (ch + j) % 65536 := by
          show (ebReplace st ((ch + j) % 65536) s).chk ((240 ||| s) % 16) = _
          rw [hmod]
          show (if s = s then _ else _) = _
          rw [if_pos rfl]
        rw [h2]
        unfold EB.get
        dsimp only
        rw [if_pos hcond]
        show (_, (240 ||| s) % 16) = _
        rw [hmod]

/-- Witness buckets for C4: one with a unique matching checksum at slot 3
behind LRU head 2, one full bucket with strictly decreasing priorities and
LRU slots 1 and 2, where the full-miss replacement lands on slot 6. -/
def stB : EB := ⟨fun i => if i = 3 then 77 else i, 2, fun _ _ => 5⟩

def stC : EB := ⟨fun i => i, 33, fun i k => if k = 0 then 10 - i else 0⟩

theorem C4_witness :
    (EB.get freshEB 5 1).2 = (if (5 + 1) % 65536 = 0 then 0 else 1) ∧
    (stB.last % 16 < 7 ∧ (EB.get stB 70 7).2 = 3) ∧
    (stC.last % 16 < 7 ∧ Elig stC (EB.get stC 100 0).2 ∧
      (EB.get stC 100 0).2 < 7 ∧ (EB.get stC 100 0).2 = 6) ∧
    EB.get (EB.get stC 100 0).1 100 0 = EB.get stC 100 0 := by
  refine ⟨C4_bucket_get.1 5 1, ⟨by decide, ?_⟩, ⟨by decide, ?_, ?_, by decide⟩, ?_⟩
  · exact C4_bucket_get.2.1 stB 70 7 3 (by decide) (by decide) (by decide) (by decide)
  · exact (C4_bucket_get.2.2.1 stC 100 0 (by decide) (by decide) (by decide)).1
  · exact (C4_bucket_get.2.2.1 stC 100 0 (by decide) (by decide) (by decide)).2.1
  · exact C4_bucket_get.2.2.2 stC 100 0 (by decide)
